import Mathlib

/-!
# ioBroker.wiffi-wz: the socket 'data' handler, syncStates and syncConfig of main.js

A shallow embedding of `main.js` and the properties of its framing and
reconciliation code.

JavaScript strings are sequences of UTF-16 code units; they are modelled as
`List Nat`, one number per code unit, so that `length`, `indexOf`, `substring`
and the regular expressions of the source see the same positions as in
JavaScript.  Asynchronous storage calls are modelled by the list of calls
issued, in issue order, with the callback run on the value the storage
returns.
-/

namespace WiffiWz

/-! ## JavaScript strings -/

/-- A JavaScript string: its UTF-16 code units. -/
abbrev JSString := List Nat

/-- The UTF-16 code units of one Unicode scalar value. -/
def utf16 (c : Char) : JSString :=
  if c.toNat < 65536 then [c.toNat]
  else [55296 + (c.toNat - 65536) / 1024, 56320 + (c.toNat - 65536) % 1024]

/-- The JavaScript string written by a literal. -/
def js (s : String) : JSString := s.toList.flatMap utf16

/-- The class `\s` of a JavaScript regular expression, which is also the set
of characters `String.prototype.trim` strips (WhiteSpace and LineTerminator):
TAB, LF, VT, FF, CR, SP, NBSP, U+1680, U+2000..U+200A, U+2028, U+2029, U+202F,
U+205F, U+3000, U+FEFF. -/
def isSpace (c : Nat) : Bool :=
  (9 ≤ c && c ≤ 13) || c == 32 || c == 160 || c == 5760 || (8192 ≤ c && c ≤ 8202) ||
  c == 8232 || c == 8233 || c == 8239 || c == 8287 || c == 12288 || c == 65279

/-- `s.replace(/\s/g, '')`. -/
def stripSpace (s : JSString) : JSString := s.filter (fun c => !isSpace c)

/-- `s.trim()`. -/
def trim (s : JSString) : JSString :=
  ((s.dropWhile isSpace).reverse.dropWhile isSpace).reverse

/-- Whether `pat` starts the string. -/
def startsWith : JSString → JSString → Bool
  | [], _ => true
  | _ :: _, [] => false
  | p :: ps, c :: cs => p == c && startsWith ps cs

/-- The scan of `replaceAll`: `skip` counts the code units of a match that
are still to be passed over. -/
def replaceAllAux (pat rep : JSString) : Nat → JSString → JSString
  | _, [] => []
  | skip + 1, _ :: cs => replaceAllAux pat rep skip cs
  | 0, c :: cs =>
    if startsWith pat (c :: cs) then rep ++ replaceAllAux pat rep (pat.length - 1) cs
    else c :: replaceAllAux pat rep 0 cs

/-- `String.prototype.replaceAll` of main.js, `target.replace(new RegExp(search, 'g'), replacement)`,
for a `search` without regular expression metacharacters and a `replacement`
without `$`: every leftmost non-overlapping occurrence is replaced.  Both calls
of the source (`':nan'` and `':\'nan\''`, replaced by `':"nan"'`) are of this kind. -/
def replaceAll (s pat rep : JSString) : JSString := replaceAllAux pat rep 0 s

/-- The scan of `split`: `cur` is the segment being read, reversed. -/
def splitAux (sep : Nat) : JSString → JSString → List JSString
  | cur, [] => [cur.reverse]
  | cur, c :: cs => if c == sep then cur.reverse :: splitAux sep [] cs else splitAux sep (c :: cur) cs

/-- `s.split(sep)` for a separator of one code unit. -/
def split (s : JSString) (sep : Nat) : List JSString := splitAux sep [] s

/-- `s.indexOf(pat)`: the first position where `pat` occurs, `-1` if none. -/
def indexOfAux (pat : JSString) : Nat → JSString → Int
  | i, [] => if pat.isEmpty then (i : Int) else -1
  | i, c :: cs => if startsWith pat (c :: cs) then (i : Int) else indexOfAux pat (i + 1) cs

/-- `s.indexOf(pat)`. -/
def indexOf (s pat : JSString) : Int := indexOfAux pat 0 s

/-- `s.substring(a, b)`: both bounds are clamped to `[0, s.length]` and
swapped when `a > b`. -/
def substring (s : JSString) (a b : Int) : JSString :=
  let a1 := min a.toNat s.length
  let b1 := min b.toNat s.length
  (s.drop (min a1 b1)).take (max a1 b1 - min a1 b1)

/-- Replace every maximal run of code units satisfying `p` by the single code
unit `r`: `s.replace(/[...]+/g, r)`.  `inRun` tells that the previous code unit
belonged to a run. -/
def replaceRuns (p : Nat → Bool) (r : Nat) : Bool → JSString → JSString
  | _, [] => []
  | inRun, c :: cs =>
    if p c then (if inRun then replaceRuns p r true cs else r :: replaceRuns p r true cs)
    else c :: replaceRuns p r false cs

/-- `ip_to_id(ip)`: `ip.replace(/[.\s]+/g, '_')`. -/
def ip_to_id (ip : JSString) : JSString :=
  replaceRuns (fun c => c == 46 || isSpace c) 95 false ip

/-- `id_to_ip(id)`: `id.replace(/[_\s]+/g, '.')`. -/
def id_to_ip (id : JSString) : JSString :=
  replaceRuns (fun c => c == 95 || isSpace c) 46 false id

/-- `s.search(/_ip/i) !== -1`.  Under the `i` flag without the `u` flag a
pattern character matches the characters with the same `toUpperCase` image,
except that a non-ASCII character is never mapped to an ASCII one; so `_`
matches `_` only, `i` matches `i` and `I`, `p` matches `p` and `P`. -/
def hasIpMarker : JSString → Bool
  | [] => false
  | c :: cs =>
    (c == 95 && (match cs with
      | i :: p :: _ => (i == 105 || i == 73) && (p == 112 || p == 80)
      | _ => false)) || hasIpMarker cs

/-- `maxBufferSize` of main.js. -/
def maxBufferSize : Nat := 100000

/-! ## JSON values and `JSON.parse` -/

/-- A JSON number as written: the value is `(-1)^neg * mant * 10^exp10`. -/
structure JNum where
  neg : Bool
  mant : Nat
  exp10 : Int
  deriving DecidableEq, Repr

/-- The values `JSON.parse` returns.  An object is the list of its own
properties; a duplicated key keeps its first position and its last value.  The
source reads the members of a parsed object by key only, so the order in which
JavaScript enumerates integer-like keys is not modelled. -/
inductive Json where
  | null : Json
  | bool (b : Bool) : Json
  | num (n : JNum) : Json
  | str (s : JSString) : Json
  | arr (items : List Json) : Json
  | obj (members : List (JSString × Json)) : Json
  deriving Repr

mutual
/-- Structural equality of JSON values. -/
def Json.beq : Json → Json → Bool
  | .null, .null => true
  | .bool a, .bool b => decide (a = b)
  | .num a, .num b => decide (a = b)
  | .str a, .str b => decide (a = b)
  | .arr a, .arr b => Json.beqList a b
  | .obj a, .obj b => Json.beqMembers a b
  | _, _ => false
/-- Structural equality of lists of JSON values. -/
def Json.beqList : List Json → List Json → Bool
  | [], [] => true
  | a :: as, b :: bs => Json.beq a b && Json.beqList as bs
  | _, _ => false
/-- Structural equality of member lists. -/
def Json.beqMembers : List (JSString × Json) → List (JSString × Json) → Bool
  | [], [] => true
  | (k, a) :: as, (l, b) :: bs => decide (k = l) && Json.beq a b && Json.beqMembers as bs
  | _, _ => false
end

mutual
theorem Json.beq_iff : ∀ (a b : Json), Json.beq a b = true ↔ a = b
  | .null, b => by cases b <;> simp [Json.beq]
  | .bool x, b => by cases b <;> simp [Json.beq]
  | .num x, b => by cases b <;> simp [Json.beq]
  | .str x, b => by cases b <;> simp [Json.beq]
  | .arr x, b => by
    cases b <;> simp [Json.beq]
    exact Json.beqList_iff x _
  | .obj x, b => by
    cases b <;> simp [Json.beq]
    exact Json.beqMembers_iff x _
theorem Json.beqList_iff : ∀ (a b : List Json), Json.beqList a b = true ↔ a = b
  | [], b => by cases b <;> simp [Json.beqList]
  | x :: xs, b => by
    cases b with
    | nil => simp [Json.beqList]
    | cons y ys => simp [Json.beqList, Json.beq_iff x y, Json.beqList_iff xs ys]
theorem Json.beqMembers_iff :
    ∀ (a b : List (JSString × Json)), Json.beqMembers a b = true ↔ a = b
  | [], b => by cases b <;> simp [Json.beqMembers]
  | (k, x) :: xs, b => by
    cases b with
    | nil => simp [Json.beqMembers]
    | cons y ys =>
      obtain ⟨l, y⟩ := y
      simp [Json.beqMembers, Json.beq_iff x y, Json.beqMembers_iff xs ys, and_assoc]
end

instance : DecidableEq Json := fun a b => decidable_of_iff _ (Json.beq_iff a b)

/-- Whether the number converts to the double `0` or `-0`: the mantissa is
zero, or the value is at most `2^-1075`, half the smallest subnormal (a tie
rounds to the even neighbour, which is zero). -/
def JNum.isZero (n : JNum) : Bool :=
  n.mant == 0 || (decide (n.exp10 < 0) && decide (n.mant * 2 ^ 1075 ≤ 10 ^ (-n.exp10).toNat))

/-- JavaScript truthiness (`if (v)`) of a JSON value. -/
def Json.truthy : Json → Bool
  | .null => false
  | .bool b => b
  | .num n => !n.isZero
  | .str s => !s.isEmpty
  | .arr _ => true
  | .obj _ => true

/-- Truthiness of a variable that may be `undefined`. -/
def truthy? : Option Json → Bool
  | none => false
  | some v => v.truthy

/-- `typeof v` for a JSON value. -/
def Json.typeof : Json → JSString
  | .null => js "object"
  | .bool _ => js "boolean"
  | .num _ => js "number"
  | .str _ => js "string"
  | .arr _ => js "object"
  | .obj _ => js "object"

/-- Own property lookup in a member list. -/
def lookup (k : JSString) : List (JSString × Json) → Option Json
  | [] => none
  | (l, v) :: ms => if l = k then some v else lookup k ms

/-- The assignment `o[k] = v` on a member list: an existing property keeps its
position, a new one is appended. -/
def setProp (k : JSString) (v : Json) : List (JSString × Json) → List (JSString × Json)
  | [] => [(k, v)]
  | (l, w) :: ms => if l = k then (l, v) :: ms else (l, w) :: setProp k v ms

/-- The object built from members in source order. -/
def mkObj (ms : List (JSString × Json)) : Json :=
  .obj (ms.foldl (fun acc m => setProp m.1 m.2 acc) [])

/-- A JSON digit. -/
def isDigit (c : Nat) : Bool := 48 ≤ c && c ≤ 57

/-- JSON whitespace: space, TAB, LF, CR. -/
def isJsonWs (c : Nat) : Bool := c == 32 || c == 9 || c == 10 || c == 13

/-- Skip JSON whitespace. -/
def skipWs (s : JSString) : JSString := s.dropWhile isJsonWs

/-- The value of a hexadecimal digit. -/
def hexVal (c : Nat) : Option Nat :=
  if isDigit c then some (c - 48)
  else if 97 ≤ c ∧ c ≤ 102 then some (c - 87)
  else if 65 ≤ c ∧ c ≤ 70 then some (c - 55)
  else none

/-- The code unit of a single-character escape. -/
def escapeUnit (c : Nat) : Option Nat :=
  if c == 34 then some 34 else if c == 92 then some 92 else if c == 47 then some 47
  else if c == 98 then some 8 else if c == 102 then some 12 else if c == 110 then some 10
  else if c == 114 then some 13 else if c == 116 then some 9 else none

/-- A JSON string after its opening quote: the code units up to the closing
quote, and the rest of the input. -/
def parseStringBody : JSString → Option (JSString × JSString)
  | [] => none
  | c :: cs =>
    if c == 34 then some ([], cs)
    else if c == 92 then
      match cs with
      | [] => none
      | e :: es =>
        if e == 117 then
          match es with
          | a :: b :: c2 :: d :: rest =>
            match hexVal a, hexVal b, hexVal c2, hexVal d with
            | some x, some y, some z, some w =>
              (parseStringBody rest).map
                (fun r => ((x * 4096 + y * 256 + z * 16 + w) :: r.1, r.2))
            | _, _, _, _ => none
          | _ => none
        else
          match escapeUnit e with
          | some u => (parseStringBody es).map (fun r => (u :: r.1, r.2))
          | none => none
    else if c < 32 then none
    else (parseStringBody cs).map (fun r => (c :: r.1, r.2))

/-- The number written by decimal digits. -/
def digitsVal (ds : JSString) : Nat := ds.foldl (fun acc d => acc * 10 + (d - 48)) 0

/-- The optional fraction of a JSON number. -/
def parseFrac (s : JSString) : Option (JSString × JSString) :=
  match s with
  | 46 :: r =>
    if (r.takeWhile isDigit).isEmpty then none
    else some (r.takeWhile isDigit, r.dropWhile isDigit)
  | _ => some ([], s)

/-- The digits of an exponent, after its sign. -/
def parseExpDigits (neg : Bool) (s : JSString) : Option (Int × JSString) :=
  if (s.takeWhile isDigit).isEmpty then none
  else some ((if neg then -(digitsVal (s.takeWhile isDigit) : Int)
              else (digitsVal (s.takeWhile isDigit) : Int)), s.dropWhile isDigit)

/-- The optional exponent of a JSON number. -/
def parseExp (s : JSString) : Option (Int × JSString) :=
  match s with
  | e :: r =>
    if e == 101 || e == 69 then
      match r with
      | 43 :: r2 => parseExpDigits false r2
      | 45 :: r2 => parseExpDigits true r2
      | _ => parseExpDigits false r
    else some (0, s)
  | [] => some (0, s)

/-- The integer part, fraction and exponent of a JSON number, after its sign. -/
def parseUnsigned (neg : Bool) (s : JSString) : Option (JNum × JSString) :=
  match s with
  | [] => none
  | d :: r =>
    if !isDigit d then none
    else
      let intDs := if d == 48 then [d] else d :: r.takeWhile isDigit
      let s2 := if d == 48 then r else r.dropWhile isDigit
      match parseFrac s2 with
      | none => none
      | some (fracDs, s3) =>
        match parseExp s3 with
        | none => none
        | some (e, s4) =>
          some (⟨neg, digitsVal (intDs ++ fracDs), e - (fracDs.length : Int)⟩, s4)

/-- A JSON number. -/
def parseNumber (s : JSString) : Option (JNum × JSString) :=
  match s with
  | 45 :: r => parseUnsigned true r
  | _ => parseUnsigned false s

mutual
/-- A JSON value at the head of the input (whitespace already skipped), and
the rest of the input.  Every call spends one unit of `fuel`. -/
def parseValue : Nat → JSString → Option (Json × JSString)
  | 0, _ => none
  | fuel + 1, s =>
    match s with
    | [] => none
    | c :: cs =>
      if c == 123 then
        match skipWs cs with
        | 125 :: r => some (.obj [], r)
        | r => (parseMembers fuel r).map (fun p => (mkObj p.1, p.2))
      else if c == 91 then
        match skipWs cs with
        | 93 :: r => some (.arr [], r)
        | r => (parseElements fuel r).map (fun p => (.arr p.1, p.2))
      else if c == 34 then (parseStringBody cs).map (fun p => (.str p.1, p.2))
      else if startsWith (js "true") s then some (.bool true, s.drop 4)
      else if startsWith (js "false") s then some (.bool false, s.drop 5)
      else if startsWith (js "null") s then some (.null, s.drop 4)
      else (parseNumber s).map (fun p => (.num p.1, p.2))
/-- The elements of an array up to its closing bracket. -/
def parseElements : Nat → JSString → Option (List Json × JSString)
  | 0, _ => none
  | fuel + 1, s =>
    match parseValue fuel s with
    | none => none
    | some (v, r) =>
      match skipWs r with
      | 44 :: r2 => (parseElements fuel (skipWs r2)).map (fun p => (v :: p.1, p.2))
      | 93 :: r2 => some ([v], r2)
      | _ => none
/-- The members of an object up to its closing brace. -/
def parseMembers : Nat → JSString → Option (List (JSString × Json) × JSString)
  | 0, _ => none
  | fuel + 1, s =>
    match s with
    | 34 :: r =>
      match parseStringBody r with
      | none => none
      | some (k, r1) =>
        match skipWs r1 with
        | 58 :: r2 =>
          match parseValue fuel (skipWs r2) with
          | none => none
          | some (v, r3) =>
            match skipWs r3 with
            | 44 :: r4 => (parseMembers fuel (skipWs r4)).map (fun p => ((k, v) :: p.1, p.2))
            | 125 :: r4 => some ([(k, v)], r4)
            | _ => none
        | _ => none
    | _ => none
end

/-- `JSON.parse(text)`: `none` when it throws a SyntaxError.  Of two nested
calls of the parser at least one reads a code unit before it calls deeper, so a
call chain is at most `2 * text.length + 1` long and the fuel is enough. -/
def JSONparse (text : JSString) : Option Json :=
  match parseValue (2 * text.length + 2) (skipWs text) with
  | some (v, r) => if (skipWs r).isEmpty then some v else none
  | none => none

/-! ## Property access on parsed values -/

/-- The result of JavaScript code that may throw (a TypeError in all places
modelled here). -/
inductive Thrown (α : Type) where
  | ok (a : α) : Thrown α
  | raised : Thrown α
  deriving DecidableEq, Repr

/-- `v.key` for one of the keys the source reads (`vars`, `homematic_name`,
`value`, `name`, `desc`, `type`, `modultyp`): an own property of an object,
`undefined` on arrays, strings, numbers and booleans (none of their prototypes
has such a property), a TypeError on `null`. -/
def getProp (v : Json) (key : JSString) : Thrown (Option Json) :=
  match v with
  | .null => .raised
  | .obj ms => .ok (lookup key ms)
  | _ => .ok none

/-- `v.hasOwnProperty(key)` for the same keys.  The method is looked up on the
value: an object whose own property `hasOwnProperty` shadows it holds a JSON
value there, which is not callable, and the call throws. -/
def hasOwn (v : Json) (key : JSString) : Thrown Bool :=
  match v with
  | .null => .raised
  | .obj ms =>
    match lookup (js "hasOwnProperty") ms with
    | some _ => .raised
    | none => .ok (lookup key ms).isSome
  | _ => .ok false

/-! ## Configuration, storage and the calls made on the adapter -/

/-- Whether the filter expression `[?(@.key=="' + x + '")]` quotes `x`
literally: `x` is then the content of a string literal of the expression, which
compares the key with `x` itself.  That needs an `x` without `"`, without `\`,
without line terminator or other control character, and without `)`, since the
filter ends at the first `)` that a `]` follows. -/
def quotedLiterally (x : JSString) : Bool :=
  x.all (fun c => decide (32 ≤ c) && c != 34 && c != 41 && c != 92 && c != 8232 && c != 8233)

/-- An entry of `adapter.config.devices`. -/
structure Device where
  name : JSString
  ip : Option JSString
  room : Option JSString
  deriving DecidableEq, Repr

/-- An entry of `state_extensions.json`, which is not part of the sources and is
taken as a parameter: `search id` is `id.search(RegExp(expression, 'i')) !== -1`,
`extensions` is the member list of the `extensions` field when the entry has
one. -/
structure ExtensionRule where
  search : JSString → Bool
  extensions : Option (List (JSString × Json))

/-- What the handler and its callbacks read from outside. -/
structure Env where
  /-- The list `adapter.config.devices`. -/
  devices : List Device
  /-- The string `adapter_db_prefix`, `'wiffi-wz.' + adapter.instance + '.root.'`. -/
  adapter_db_prefix : JSString
  /-- The ids of the entries of `wiffi_native_states.json` (not part of the sources). -/
  nativeIds : List JSString
  /-- The entries of `state_extensions.json` (not part of the sources). -/
  rules : List ExtensionRule
  /-- What `adapter.getState(id, cb)` hands to its callback: `none` for an
  error or a missing state, else `state.val`. -/
  getState : JSString → Option Json
  /-- What `adapter.getStates(pattern, cb)` hands to its callback: `none` for
  an error, else the keys of `states` in enumeration order. -/
  getStates : JSString → Option (List JSString)
  /-- The builtin `String.prototype.toUpperCase`. -/
  toUpperCase : JSString → JSString
  /-- The builtin conversion to string of a value that is not a string, as
  used by `+` between a string and a value. -/
  toStr : Json → JSString
  /-- What `JSONPath.query(adapter.config, '$.devices[?(@.ip=="' + x + '")]')`
  does for an `x` that the expression does not quote literally: the library is
  not part of the sources, and it may throw or select by another condition. -/
  devicesOther : JSString → Thrown (List Device)
  /-- The same for `JSONPath.query(wiffi_native_states, '$[?(@.id=="' + x + '")]')`. -/
  nativeOther : JSString → Thrown (List JSString)
  /-- The ids of `wiffi_native_states.json` are plain identifiers, which a
  filter expression quotes literally. -/
  nativeLiteral : ∀ n ∈ nativeIds, quotedLiterally n = true

/-- A call on the adapter. -/
inductive Call where
  | getState (id : JSString) : Call
  | getStates (pattern : JSString) : Call
  | setState (id : JSString) (val : Option Json) (ack : Bool) : Call
  | createState (parent channel : JSString) (id : Json) (common : List (JSString × Json)) : Call
  | delState (id : JSString) : Call
  | createBasicStates (name : JSString) (ip : JSString) (room : Option JSString) : Call
  | deleteChannelFromEnum (enumName parent channel : JSString) : Call
  | deleteChannel (parent channel : JSString) : Call
  deriving DecidableEq, Repr

/-- `JSONPath.query(adapter.config, '$.devices[?(@.ip=="' + x + '")]')`: for
an `x` that the expression quotes literally, the configured devices whose `ip`
equals `x`; for any other `x`, what the parameter `other` says. -/
def queryDevices (other : JSString → Thrown (List Device)) (devices : List Device)
    (x : JSString) : Thrown (List Device) :=
  if quotedLiterally x then .ok (devices.filter (fun d => decide (d.ip = some x)))
  else other x

/-- `JSONPath.query(wiffi_native_states, '$[?(@.id=="' + x + '")]')`, as the
list of matching ids, under the same reading of the filter. -/
def queryNative (other : JSString → Thrown (List JSString)) (nativeIds : List JSString)
    (x : JSString) : Thrown (List JSString) :=
  if quotedLiterally x then .ok (nativeIds.filter (fun n => decide (n = x)))
  else other x

/-! ## The socket 'data' handler: frame extraction (main.js 105-154) -/

/-- One `for` loop over the segments (main.js 122-127 and 131-136): each
segment is trimmed and parsed, a SyntaxError leaves `jsonContent` as it is, and
the loop stops at the first truthy `jsonContent`. -/
def parseLoop : Option Json → List JSString → Option Json
  | jc, [] => jc
  | jc, seg :: rest =>
    let jc1 := match JSONparse (trim seg) with
      | some v => some v
      | none => jc
    if truthy? jc1 then jc1 else parseLoop jc1 rest

/-- Lines 107-109: the workaround for nans in the buffer. -/
def nanWorkaround (b : JSString) : JSString :=
  replaceAll (replaceAll b (js ":nan") (js ":\"nan\"")) (js ":'nan'") (js ":\"nan\"")

/-- Lines 105-117: append the chunk, apply the nan workaround, clear an
oversized buffer. -/
def appendChunk (buffer data : JSString) : JSString :=
  if (nanWorkaround (buffer ++ data)).length > maxBufferSize then []
  else nanWorkaround (buffer ++ data)

/-- Lines 119-154 on the buffer `b` of line 117: the value of `jsonContent`
at line 156.  The third stage calls `trim` on `buffer_cond`, which is an
array at that point; the TypeError is caught and `jsonContent` is unchanged. -/
def parseCascade (b : JSString) : Option Json :=
  let jc1 := parseLoop none (split (stripSpace b) 3)
  let jc2 := if !truthy? jc1 then parseLoop jc1 (split (stripSpace b) 4) else jc1
  let jc3 := jc2
  if !truthy? jc3 then
    match JSONparse (substring b (indexOf b (js "\x7b\"modultyp\"")) (indexOf b (js "\x7d\x7d") + 2)) with
    | some v => some v
    | none => jc3
  else jc3

/-- The parsed payload of a call: `jsonContent` when it is truthy. -/
def payloadOf (jc : Option Json) : Option Json :=
  if truthy? jc then jc else none

/-! ## The socket 'data' handler: device resolution (main.js 156-204) -/

/-- Lines 163-168: the scan of `vars` for the address variable.  The result is
the value of `ip` after the loop (`none` for `undefined`); reading
`homematic_name` of `null`, or calling `search` on a `homematic_name` that is
not a string (`undefined` included), throws. -/
def findIp : List Json → Thrown (Option Json)
  | [] => .ok none
  | v :: rest =>
    match getProp v (js "homematic_name") with
    | .raised => .raised
    | .ok (some (.str n)) =>
      if hasIpMarker n then
        (match getProp v (js "value") with
          | .raised => .raised
          | .ok val => .ok val)
      else findIp rest
    | .ok _ => .raised

/-- Lines 160-169: `ip` after the guarded scan. -/
def resolveIp (jsonContent : Json) : Thrown (Option Json) :=
  match hasOwn jsonContent (js "vars") with
  | .raised => .raised
  | .ok false => .ok none
  | .ok true =>
    match getProp jsonContent (js "vars") with
    | .ok (some (.arr (v :: vs))) => findIp (v :: vs)
    | .ok _ => .ok none
    | .raised => .raised

/-- The default members of a new point (main.js 358-362). -/
def defaultState : List (JSString × Json) :=
  [(js "read", .bool true), (js "write", .bool false), (js "role", .str (js "state"))]

/-- `cstate.hasOwnProperty(key) && cstate.key`: the value when the guard is
truthy.  `cstate` is not `null` here. -/
def guarded (cstate : Json) (key : JSString) : Thrown (Option Json) :=
  match hasOwn cstate key with
  | .raised => .raised
  | .ok false => .ok none
  | .ok true =>
    match getProp cstate key with
    | .raised => .raised
    | .ok v => .ok (if truthy? v then v else none)

/-- Lines 384-397: the `switch` on `cstate.type`. -/
def setType (state : List (JSString × Json)) (t : Json) : List (JSString × Json) :=
  if t = .str (js "string") then setProp (js "type") (.str (js "string")) state
  else if t = .str (js "number") then setProp (js "type") (.str (js "number")) state
  else if t = .str (js "boolean") then setProp (js "type") (.str (js "boolean")) state
  else state

/-- `Object.assign(state, cext)`. -/
def objectAssign (state cext : List (JSString × Json)) : List (JSString × Json) :=
  cext.foldl (fun acc m => setProp m.1 m.2 acc) state

/-- Lines 407-414 for a string `id`: the loop over the extension rules. -/
def applyExtensions (id : JSString) (state : List (JSString × Json)) :
    List ExtensionRule → List (JSString × Json)
  | [] => state
  | r :: rest =>
    if r.search id then
      match r.extensions with
      | some cext => objectAssign state cext
      | none => applyExtensions id state rest
    else applyExtensions id state rest

/-- Lines 406-414: `state['id'].search` throws when the id is not a string and
there is a rule to test. -/
def extend (rules : List ExtensionRule) (state : List (JSString × Json)) :
    Thrown (List (JSString × Json)) :=
  match rules with
  | [] => .ok state
  | _ :: _ =>
    match lookup (js "id") state with
    | some (.str id) => .ok (applyExtensions id state rules)
    | _ => .raised

/-- Lines 372-404: the members set from the guarded fields of the variable. -/
def assemble (name hname desc type value : Option Json) (state0 : List (JSString × Json)) :
    List (JSString × Json) :=
  let s1 := match name with
    | some n => setProp (js "name") n state0
    | none => state0
  let s2 := match hname with
    | some h => setProp (js "id") h s1
    | none => s1
  let s3 := match desc with
    | some d => setProp (js "desc") d s2
    | none => s2
  let s4 := match type with
    | some t => setType s3 t
    | none => s3
  match value with
  | some v => if lookup (js "type") s4 = some (.str v.typeof) then setProp (js "def") v s4 else s4
  | none => s4

/-- Lines 372-414: the point built for a variable whose id is already set in
`state0`. -/
def buildState (rules : List ExtensionRule) (cstate : Json) (state0 : List (JSString × Json)) :
    Thrown (List (JSString × Json)) :=
  match guarded cstate (js "name"), guarded cstate (js "homematic_name"),
        guarded cstate (js "desc"), guarded cstate (js "type"), guarded cstate (js "value") with
  | .ok name, .ok hname, .ok desc, .ok type, .ok value =>
    extend rules (assemble name hname desc type value state0)
  | _, _, _, _, _ => .raised

/-- The state of the loop of syncStates. -/
structure SyncLoop where
  /-- The array that `states_in_db` and `states_to_remove` both name. -/
  db : List JSString
  /-- The calls issued so far, in order. -/
  calls : List Call
  /-- Whether a TypeError ended the loop. -/
  raised : Bool

/-- How one turn of the loop of syncStates ends. -/
inductive Step where
  /-- The loop goes on with this array and these calls. -/
  | next (db : List JSString) (calls : List Call) : Step
  /-- The loop is left, by `break` or by a TypeError. -/
  | halt (raised : Bool) : Step

/-- Lines 353 and 355: `states_in_db.includes(cstate.homematic_name)`, with
the name found.  The array holds strings, so only a string can be included. -/
def findInDb (db : List JSString) : Option Json → Option JSString
  | some (.str n) => if n ∈ db then some n else none
  | _ => none

/-- Lines 350-423: one turn of the loop, for the variable `cstate`.
`states_to_remove` is the same array as `states_in_db` (line 347 copies the
reference), so the `splice` of line 355 shortens the array that line 353
searches. -/
def syncStep (rules : List ExtensionRule) (chan : JSString) (db : List JSString)
    (calls : List Call) (cstate : Json) : Step :=
  match getProp cstate (js "homematic_name") with
  | .raised => .halt true
  | .ok hname =>
    match findInDb db hname with
    | some n => .next (db.eraseIdx (db.indexOf n)) calls
    | none =>
      match guarded cstate (js "homematic_name") with
      | .raised => .halt true
      | .ok none => .halt false
      | .ok (some id) =>
        match buildState rules cstate (setProp (js "id") id defaultState) with
        | .raised => .halt true
        | .ok state =>
          .next db (calls ++ [Call.createState (js "root") chan
            ((lookup (js "id") state).getD id) state])

/-- Lines 349-424: the loop over `jsonContent.vars`. -/
def syncLoop (rules : List ExtensionRule) (chan : JSString) :
    List JSString → List Call → List Json → SyncLoop
  | db, calls, [] => ⟨db, calls, false⟩
  | db, calls, cstate :: rest =>
    match syncStep rules chan db calls cstate with
    | .next db2 calls2 => syncLoop rules chan db2 calls2 rest
    | .halt raised => ⟨db, calls, raised⟩

/-- `cstate.split('.')[cstate.split('.').length - 1]`. -/
def lastSegment (key : JSString) : JSString :=
  (split key 46).getLast?.getD []

/-- Lines 335-345: the last segments of the stored keys that are not ids of
native states, in the order of the keys.  An exception of `JSONPath.query`
ends the callback. -/
def statesInDb (env : Env) : List JSString → Thrown (List JSString)
  | [] => .ok []
  | key :: rest =>
    match queryNative env.nativeOther env.nativeIds (lastSegment key) with
    | .raised => .raised
    | .ok found =>
      match statesInDb env rest with
      | .raised => .raised
      | .ok more => if found.length = 0 then .ok (lastSegment key :: more) else .ok more

/-- What a run of syncStates did. -/
structure SyncResult where
  /-- The calls issued, in order. -/
  calls : List Call
  /-- Whether an exception ended it. -/
  raised : Bool
  deriving DecidableEq

/-- The pattern of line 329: `adapter_db_prefix + ip_to_id(ip) + '.*'`. -/
def statesPattern (env : Env) (ip : JSString) : JSString :=
  env.adapter_db_prefix ++ ip_to_id ip ++ js ".*"

/-- The argument of delState at line 428: `'root.' + ip_to_id(ip) + '.' + id`. -/
def statePath (ip id : JSString) : JSString :=
  js "root." ++ ip_to_id ip ++ js "." ++ id

/-- `syncStates(ip, jsonContent)` for a string `ip` and the elements `vars` of
the array `jsonContent.vars` (its only caller has checked both). -/
def syncStates (env : Env) (ip : JSString) (vars : List Json) : SyncResult :=
  match env.getStates (statesPattern env ip) with
  | none => ⟨[Call.getStates (statesPattern env ip)], false⟩
  | some keys =>
    match statesInDb env keys with
    | .raised => ⟨[Call.getStates (statesPattern env ip)], true⟩
    | .ok states_in_db =>
      let loop := syncLoop env.rules (ip_to_id ip) states_in_db
        [Call.getStates (statesPattern env ip)] vars
      if loop.raised then ⟨loop.calls, true⟩
      else ⟨loop.calls ++ loop.db.map (fun id => Call.delState (statePath ip id)), false⟩

/-- What one call of the 'data' handler did. -/
structure Outcome where
  /-- The variable `buffer` when the handler is left. -/
  buffer : JSString
  /-- The parsed payload: `jsonContent` at line 156 when it is truthy. -/
  payload : Option Json
  /-- Whether the handler was left by a TypeError. -/
  raised : Bool
  /-- The calls issued by the handler and by its getState callback, in order. -/
  calls : List Call
  /-- Whether the getState callback was left by a TypeError. -/
  callbackRaised : Bool
  deriving DecidableEq

/-- Lines 186-199: the callback of `adapter.getState`, for a payload whose
`vars` is an array with the elements `vars`. -/
def typeCallback (env : Env) (ip : JSString) (jsonContent : Json) (vars : List Json)
    (state : Option Json) : SyncResult :=
  match state with
  | none => ⟨[], false⟩
  | some val =>
    match hasOwn jsonContent (js "modultyp"), getProp jsonContent (js "modultyp") with
    | .ok true, .ok (some (.str m)) =>
      (match val with
        | .str t =>
          if env.toUpperCase m = env.toUpperCase t then ⟨[], false⟩
          else syncStates env ip vars
        | _ => ⟨[], true⟩)
    | .ok false, _ => ⟨[], false⟩
    | _, _ => ⟨[], true⟩

/-- Lines 184-203 for the string address `a` of a registered device: the read
of the Type point, its callback, and the emptied buffer. -/
def deviceFound (env : Env) (a : JSString) (jsonContent : Json) : Outcome :=
  let id := js "root." ++ ip_to_id a ++ js ".Type"
  let vars := match getProp jsonContent (js "vars") with
    | .ok (some (.arr vs)) => vs
    | _ => []
  let cb := typeCallback env a jsonContent vars (env.getState id)
  ⟨[], some jsonContent, false, Call.getState id :: cb.calls, cb.raised⟩

/-- Lines 156-204 for a truthy `jsonContent` and the buffer `b` of line 117.
An address that is not a string is converted by `+` at line 177, and
`ip_to_id` throws on it at line 185; an exception of `JSONPath.query` at line
177 leaves the handler as well. -/
def resolve (env : Env) (b : JSString) (jsonContent : Json) : Outcome :=
  match resolveIp jsonContent with
  | .raised => ⟨b, some jsonContent, true, [], false⟩
  | .ok ip =>
    if !truthy? ip then ⟨[], some jsonContent, false, [], false⟩
    else
      match ip with
      | none => ⟨[], some jsonContent, false, [], false⟩
      | some (.str a) =>
        match queryDevices env.devicesOther env.devices a with
        | .raised => ⟨b, some jsonContent, true, [], false⟩
        | .ok wiffi_in_config =>
          if wiffi_in_config.length = 0 then ⟨b, some jsonContent, false, [], false⟩
          else deviceFound env a jsonContent
      | some v =>
        match queryDevices env.devicesOther env.devices (env.toStr v) with
        | .raised => ⟨b, some jsonContent, true, [], false⟩
        | .ok wiffi_in_config =>
          if wiffi_in_config.length = 0 then ⟨b, some jsonContent, false, [], false⟩
          else ⟨b, some jsonContent, true, [], false⟩

/-- The handler of the socket 'data' event (main.js 97-205): `buffer` is the
variable before the call, `data` the chunk as `data.toString('utf8')`. -/
def handleData (env : Env) (buffer data : JSString) : Outcome :=
  let b := appendChunk buffer data
  match payloadOf (parseCascade b) with
  | some jsonContent => resolve env b jsonContent
  | none => ⟨b, none, false, [], false⟩

/-- The payloads of the calls of the handler on a sequence of chunks, one call
per chunk, starting with `buffer`.  An exception of the handler is not caught
in main.js, so the sequence ends with a call that raises. -/
def payloads (env : Env) : JSString → List JSString → List Json
  | _, [] => []
  | buffer, data :: rest =>
    let o := handleData env buffer data
    let tail := if o.raised then [] else payloads env o.buffer rest
    match o.payload with
    | some v => v :: tail
    | none => tail

/-- The buffer after the calls of the handler on a sequence of chunks. -/
def bufferAfter (env : Env) : JSString → List JSString → JSString
  | buffer, [] => buffer
  | buffer, data :: rest =>
    let o := handleData env buffer data
    if o.raised then o.buffer else bufferAfter env o.buffer rest

/-- The name of a variable as `"root." + wiffi.id + "." + name` converts it. -/
def nameString (env : Env) : Option Json → JSString
  | none => js "undefined"
  | some (.str n) => n
  | some v => env.toStr v

/-- `setStatesFromJSON(curStates, wiffi, callback)` (main.js 438-452) for the
elements `vars` of `curStates.vars` and `wiffiId = wiffi.id`: the calls of
setState, in order. -/
def setStatesFromJSON (env : Env) (vars : List Json) (wiffiId : JSString) : Thrown (List Call) :=
  match vars with
  | [] => .ok []
  | v :: rest =>
    match getProp v (js "homematic_name"), getProp v (js "value") with
    | .ok name, .ok val =>
      (match setStatesFromJSON env rest wiffiId with
        | .ok calls =>
          .ok (Call.setState (js "root." ++ wiffiId ++ js "." ++ nameString env name) val true :: calls)
        | .raised => .raised)
    | _, _ => .raised

/-! ## syncConfig (main.js 229-282): the callback of getChannelsOf -/

/-- `_id.split('.')[3]`. -/
def channelSegment (id : JSString) : Option JSString := (split id 46).get? 3

/-- Lines 248-256: the array `configToDelete`.  A channel id with fewer than
four segments makes `id_to_ip(undefined)` throw, and `JSONPath.query` may
throw; `other` is what the query does for a string it does not quote
literally. -/
def configToDelete (other : JSString → Thrown (List Device)) (devices : List Device) :
    List JSString → Thrown (List JSString)
  | [] => .ok []
  | id :: rest =>
    match channelSegment id with
    | none => .raised
    | some seg =>
      match queryDevices other devices (id_to_ip seg) with
      | .raised => .raised
      | .ok wiffi_in_config =>
        match configToDelete other devices rest with
        | .raised => .raised
        | .ok more => if wiffi_in_config.length = 0 then .ok (seg :: more) else .ok more

/-- Lines 258-265: the calls of createBasicStates; `configToAdd` holds the ip
of every configured device, so its `indexOf` test always passes. -/
def createCalls : List Device → List Call
  | [] => []
  | d :: rest =>
    match d.ip with
    | some ip => if !ip.isEmpty then Call.createBasicStates d.name ip d.room :: createCalls rest
                 else createCalls rest
    | none => createCalls rest

/-- Lines 238-271: the callback of `adapter.getChannelsOf` for the channel ids
`channels`. -/
def syncConfigChannels (other : JSString → Thrown (List Device)) (devices : List Device)
    (channels : List JSString) : Thrown (List Call) :=
  match configToDelete other devices channels with
  | .raised => .raised
  | .ok del =>
    .ok (createCalls devices ++ del.flatMap
      (fun seg => [Call.deleteChannelFromEnum (js "room") (js "root") seg,
                   Call.deleteChannel (js "root") seg]))

/-- The uppercase of ASCII letters; `toUpperCase` on strings of ASCII characters. -/
def asciiUpper (s : JSString) : JSString :=
  s.map (fun c => if 97 ≤ c ∧ c ≤ 122 then c - 32 else c)

/-- `id.search(RegExp(pat, 'i')) !== -1` for a pattern of ASCII letters and
digits: a case-insensitive substring search. -/
def searchLiteral (pat : JSString) : JSString → Bool
  | [] => pat.isEmpty
  | c :: cs => startsWith (asciiUpper pat) (asciiUpper (c :: cs)) || searchLiteral pat cs

/-! ## The behaviour the specification words describe -/

/-- Extension rules as the specification words them: the attributes of the
first rule, in list order, whose expression matches the identifier are merged
(none when that rule has no `extensions` field), and no later rule is looked
at. -/
def firstMatchWins (id : JSString) (state : List (JSString × Json))
    (rules : List ExtensionRule) : List (JSString × Json) :=
  match rules.find? (fun r => r.search id) with
  | some r => objectAssign state (r.extensions.getD [])
  | none => state

/-- An address made of non-empty groups of digits separated by single dots. -/
def dottedDigits : JSString → Bool
  | [] => false
  | [c] => isDigit c
  | c :: d :: rest =>
    isDigit c && (if d == 46 then dottedDigits rest else dottedDigits (d :: rest))

/-- Whether a configured device has the address `a`. -/
def configured (devices : List Device) (a : JSString) : Bool :=
  devices.any (fun d => decide (d.ip = some a))

/-- The ids of the createState calls, in order. -/
def createdIds : List Call → List Json
  | [] => []
  | Call.createState _ _ id _ :: rest => id :: createdIds rest
  | _ :: rest => createdIds rest

/-- The arguments of the delState calls, in order. -/
def deletedPaths : List Call → List JSString
  | [] => []
  | Call.delState p :: rest => p :: deletedPaths rest
  | _ :: rest => deletedPaths rest

/-- A variable record with the non-empty string `n` as `homematic_name`. -/
def NamedRecord (v : Json) (n : JSString) : Prop :=
  ∃ ms, v = .obj ms ∧ lookup (js "hasOwnProperty") ms = none ∧
    lookup (js "homematic_name") ms = some (.str n) ∧ n ≠ []

/-- A variable record without `homematic_name`. -/
def Nameless (v : Json) : Prop :=
  ∃ ms, v = .obj ms ∧ lookup (js "hasOwnProperty") ms = none ∧
    lookup (js "homematic_name") ms = none

/-- The stored dynamic point identifiers of a storage listing: the last
segments of the listed keys that are not ids of native states, in the order of
the keys. -/
def storedDynamic (nativeIds keys : List JSString) : List JSString :=
  (keys.map lastSegment).filter (fun x => decide (x ∉ nativeIds))

/-- A call that ends at line 173 (no address) or at line 203 (device found):
the branches that clear the buffer.  In the second case the address is a
string that the filter of line 177 quotes literally and that a configured
device has. -/
def Settled (env : Env) (v : Json) : Prop :=
  ∃ ip, resolveIp v = .ok ip ∧
    (truthy? ip = false ∨
      ∃ a, ip = some (.str a) ∧ quotedLiterally a = true ∧ configured env.devices a = true)

/-- A frame as it arrives: the chunks that carry it, its text without the
terminator, and the value it stands for. -/
structure Frame where
  chunks : List JSString
  text : JSString
  value : Json

/-- A frame whose chunks carry its text and the 0x03 terminator and nothing
else, such that after every initial part of the chunks the buffer is within
`maxBufferSize`, the cascade yields no payload while the frame is incomplete,
the complete text (after the nan workaround and the removal of whitespace)
parses to the truthy `value`, and the call that delivers it ends in a branch
that clears the buffer. -/
def WellDelivered (env : Env) (f : Frame) : Prop :=
  f.chunks.flatten = f.text ++ [3] ∧
    (∀ q ∈ f.chunks.inits, (nanWorkaround q.flatten).length ≤ maxBufferSize) ∧
    (∀ q ∈ f.chunks.inits, q ≠ f.chunks →
      payloadOf (parseCascade (nanWorkaround q.flatten)) = none) ∧
    JSONparse (stripSpace (nanWorkaround f.text)) = some f.value ∧ f.value.truthy = true ∧
    Settled env f.value

/-- How a device writes a nan value: bare, or between apostrophes. -/
inductive NanToken where
  | bare : NanToken
  | quoted : NanToken

/-- The code units of a nan token. -/
def NanToken.text : NanToken → JSString
  | .bare => js "nan"
  | .quoted => js "'nan'"

/-- A payload text as sent: each piece of `segs` is followed by a colon and a
nan token, and `last` ends the text. -/
def sentText : List (JSString × NanToken) → JSString → JSString
  | [], last => last
  | (s, tok) :: rest, last => s ++ [58] ++ tok.text ++ sentText rest last

/-- The same text with every nan token read as the JSON string "nan". -/
def readText : List (JSString × NanToken) → JSString → JSString
  | [], last => last
  | (s, _) :: rest, last => s ++ [58] ++ js "\"nan\"" ++ readText rest last

/-- Whether `:nan` or `:'nan'` occurs in the text. -/
def hasNanMark : JSString → Bool
  | [] => false
  | c :: cs =>
    startsWith (js ":nan") (c :: cs) || startsWith (js ":'nan'") (c :: cs) || hasNanMark cs

/-- The nan tokens of the text are exactly those of `segs`: no piece, with its
colon, and not `last`, holds a `:nan` or `:'nan'` of its own. -/
def NanTemplate (segs : List (JSString × NanToken)) (last : JSString) : Prop :=
  (∀ s ∈ segs, hasNanMark (s.1 ++ [58]) = false) ∧ hasNanMark last = false

/-- The two replacements of the nan workaround as one scan: at a `:nan` or a
`:'nan'` the scan writes `:"nan"` and passes over the match; `skip` counts the
code units still to be passed over.  It is shown below to compute
`nanWorkaround`. -/
def nanScanAux : Nat → JSString → JSString
  | _, [] => []
  | skip + 1, _ :: cs => nanScanAux skip cs
  | 0, c :: cs =>
    if startsWith (js ":nan") (c :: cs) then js ":\"nan\"" ++ nanScanAux 3 cs
    else if startsWith (js ":'nan'") (c :: cs) then js ":\"nan\"" ++ nanScanAux 5 cs
    else c :: nanScanAux 0 cs

/-- The scan of a whole text. -/
def nanScan (s : JSString) : JSString := nanScanAux 0 s

/-- What is left of `s` after reading code units other than `c`: `r` ends `s`,
and `c` does not occur before it. -/
def Reads (c : Nat) (s r : JSString) : Prop := ∃ u, s = u ++ r ∧ c ∉ u

/-! ## Example data -/

/-- A configuration with the device `10.0.0.5`, the native state `Type`
(read at main.js 185), no extension rule, the stored type `WZ` and no stored
point.  The strings spliced into filter expressions by the examples are all
quoted literally, so the two JSONPath parameters are never consulted. -/
def exampleEnv : Env :=
  ⟨[⟨js "wz", some (js "10.0.0.5"), none⟩], js "wiffi-wz.0.root.", [js "Type"], [],
   fun _ => some (.str (js "WZ")), fun _ => some [], asciiUpper, fun _ => js "[object Object]",
   fun _ => .raised, fun _ => .raised, by decide⟩

/-- The same without any configured device. -/
def emptyEnv : Env :=
  ⟨[], js "wiffi-wz.0.root.", [js "Type"], [],
   fun _ => some (.str (js "WZ")), fun _ => some [], asciiUpper, fun _ => js "[object Object]",
   fun _ => .raised, fun _ => .raised, by decide⟩

/-- A terminated frame of the device `10.0.0.5`. -/
def frameA : JSString :=
  js "\x7b\"modultyp\":\"WZ\",\"vars\":[\x7b\"homematic_name\":\"Device_ip\",\"value\":\"10.0.0.5\"\x7d,\x7b\"homematic_name\":\"temp1\",\"value\":21\x7d]\x7d\x03"

/-- The payload of `frameA`. -/
def payloadA : Json :=
  .obj [(js "modultyp", .str (js "WZ")),
        (js "vars", .arr [
          .obj [(js "homematic_name", .str (js "Device_ip")), (js "value", .str (js "10.0.0.5"))],
          .obj [(js "homematic_name", .str (js "temp1")), (js "value", .num ⟨false, 21, 0⟩)]])]

/-- A terminated frame whose only variable has no `homematic_name`. -/
def frameNameless : JSString := js "\x7b\"vars\":[\x7b\"value\":1\x7d]\x7d\x03"

/-- Two extension rules: the pattern `temp` without an `extensions` field,
then the pattern `t` with the attribute `unit`. -/
def exampleRules : List ExtensionRule :=
  [⟨searchLiteral (js "temp"), none⟩,
   ⟨searchLiteral (js "t"), some [(js "unit", .str (js "C"))]⟩]

/-- The point of `temp1` before the extension rules are applied. -/
def pointTemp1 : List (JSString × Json) :=
  setProp (js "id") (.str (js "temp1")) defaultState

/-- A storage that lists the native point `Type` and the points `old` and
`temp1` of the device `10.0.0.5`, with the stored type `XX`. -/
def storedEnv : Env :=
  ⟨[⟨js "wz", some (js "10.0.0.5"), none⟩], js "wiffi-wz.0.root.", [js "Type"], [],
   fun _ => some (.str (js "XX")),
   fun _ => some [js "wiffi-wz.0.root.10_0_0_5.Type", js "wiffi-wz.0.root.10_0_0_5.old",
                  js "wiffi-wz.0.root.10_0_0_5.temp1"],
   asciiUpper, fun _ => js "[object Object]", fun _ => .raised, fun _ => .raised, by decide⟩

/-- The variable record with the given `homematic_name`. -/
def named (n : String) : Json := .obj [(js "homematic_name", .str (js n))]

/-- A whitespace-free frame text of the device `10.0.0.5`, without terminator:
{"modultyp":"WZ","vars":[{"homematic_name":"w_ip","value":"10.0.0.5"}],"n":N}
for the digits N. -/
def frameText (n : String) : JSString :=
  js "\x7b\"modultyp\":\"WZ\",\"vars\":[\x7b\"homematic_name\":\"w_ip\",\"value\":\"10.0.0.5\"\x7d],\"n\":" ++
    js n ++ js "\x7d"

/-- The payload of `frameText`. -/
def framePayload (n : Nat) : Json :=
  .obj [(js "modultyp", .str (js "WZ")),
        (js "vars", .arr [.obj [(js "homematic_name", .str (js "w_ip")),
          (js "value", .str (js "10.0.0.5"))]]),
        (js "n", .num ⟨false, n, 0⟩)]

/-- A payload text with a nan value, without terminator:
{"modultyp":"WZ","v":{"t":TOKEN}} where TOKEN is what follows the colon. -/
def nanText (token : String) : JSString :=
  js "\x7b\"modultyp\":\"WZ\",\"v\":\x7b\"t\":" ++ js token ++ js "\x7d\x7d"

/-- The object of `nanText` with the nan read as the string "nan". -/
def nanPayload : Json :=
  .obj [(js "modultyp", .str (js "WZ")), (js "v", .obj [(js "t", .str (js "nan"))])]

/-- The first chunk of a frame cut before its last brace:
{"a":{"modultyp":"x","b":{}} -/
def nestedText : JSString :=
  js "\x7b\"a\":\x7b\"modultyp\":\"x\",\"b\":\x7b\x7d\x7d"

/-- The inner object of `nestedText`. -/
def nestedInner : Json :=
  .obj [(js "modultyp", .str (js "x")), (js "b", .obj [])]

/-- The pieces of the text {"modultyp":"WZ","v":{"t":nan,"u":'nan'}}: each
is followed by a colon and its token, and `}}` ends the text. -/
def twoNanSegs : List (JSString × NanToken) :=
  [(js "\x7b\"modultyp\":\"WZ\",\"v\":\x7b\"t\"", .bare), (js ",\"u\"", .quoted)]

/-- The object of that text with both nan read as the string "nan". -/
def twoNanPayload : Json :=
  .obj [(js "modultyp", .str (js "WZ")),
        (js "v", .obj [(js "t", .str (js "nan")), (js "u", .str (js "nan"))])]

/-- The same pieces after the junk `junk`. -/
def junkNanSegs : List (JSString × NanToken) :=
  [(js "junk\x7b\"modultyp\":\"WZ\",\"v\":\x7b\"t\"", .bare), (js ",\"u\"", .quoted)]

/-! ## Properties -/

set_option maxRecDepth 100000

theorem parseCascade_nil : parseCascade [] = none := by decide

theorem appendChunk_length_le (buffer data : JSString) :
    (appendChunk buffer data).length ≤ maxBufferSize := by
  unfold appendChunk
  split
  · simp
  · omega

theorem resolve_buffer (env : Env) (b : JSString) (v : Json) :
    (resolve env b v).buffer = [] ∨ (resolve env b v).buffer = b := by
  unfold resolve deviceFound
  repeat' split
  all_goals simp

theorem handleData_buffer (env : Env) (buffer data : JSString) :
    (handleData env buffer data).buffer = [] ∨
      (handleData env buffer data).buffer = appendChunk buffer data := by
  simp only [handleData]
  cases payloadOf (parseCascade (appendChunk buffer data)) with
  | none => simp
  | some v => exact resolve_buffer _ _ _

theorem replaceAllAux_replicate (pat rep : JSString) (c : Nat)
    (h : ∀ cs, startsWith pat (c :: cs) = false) :
    ∀ n, replaceAllAux pat rep 0 (List.replicate n c) = List.replicate n c := by
  intro n
  induction n with
  | zero => rfl
  | succ n ih => simp [List.replicate_succ, replaceAllAux, h, ih]

theorem nanWorkaround_replicate (n : Nat) :
    nanWorkaround (List.replicate n 120) = List.replicate n 120 := by
  have h1 : ∀ cs, startsWith (js ":nan") (120 :: cs) = false := fun _ => rfl
  have h2 : ∀ cs, startsWith (js ":'nan'") (120 :: cs) = false := fun _ => rfl
  unfold nanWorkaround replaceAll
  rw [replaceAllAux_replicate _ _ 120 h1, replaceAllAux_replicate _ _ 120 h2]

/-- C5. Size guard: when the buffer, after the chunk is appended and the nan
workaround applied, is longer than `maxBufferSize`, the call produces no parsed
payload (the cascade runs on the emptied buffer and none of its stages
succeeds), issues no call and leaves the buffer empty; and after every call of
the handler the buffer is at most `maxBufferSize` long. -/
theorem size_guard (env : Env) (buffer data : JSString) :
    ((nanWorkaround (buffer ++ data)).length > maxBufferSize →
        appendChunk buffer data = [] ∧
        parseCascade (appendChunk buffer data) = none ∧
        (handleData env buffer data).payload = none ∧
        (handleData env buffer data).calls = [] ∧
        (handleData env buffer data).buffer = []) ∧
      (handleData env buffer data).buffer.length ≤ maxBufferSize := by
  constructor
  · intro h
    have hb : appendChunk buffer data = [] := by
      unfold appendChunk
      rw [if_pos h]
    refine ⟨hb, by rw [hb]; exact parseCascade_nil, ?_, ?_, ?_⟩ <;>
      simp [handleData, hb, parseCascade_nil, payloadOf, truthy?]
  · rcases handleData_buffer env buffer data with h | h
    · rw [h]; simp
    · rw [h]; exact appendChunk_length_le buffer data

/-- Witness of C5: a chunk of 100001 letters `x` on an empty buffer. -/
theorem size_guard_witness :
    (nanWorkaround ([] ++ List.replicate 100001 120)).length > maxBufferSize ∧
      (handleData exampleEnv [] (List.replicate 100001 120)).payload = none ∧
      (handleData exampleEnv [] (List.replicate 100001 120)).buffer = [] :=
  have h : (nanWorkaround ([] ++ List.replicate 100001 120)).length > maxBufferSize := by
    rw [List.nil_append, nanWorkaround_replicate, List.length_replicate]
    decide
  ⟨h, ((size_guard exampleEnv [] (List.replicate 100001 120)).1 h).2.2.1,
    ((size_guard exampleEnv [] (List.replicate 100001 120)).1 h).2.2.2.2⟩

/-- C2. At a payload of the configured device `10.0.0.5` whose `modultyp`
equals the stored Type, the handler does not run syncStates, but it writes no
value either: its only call is the read of the Type point, while
`setStatesFromJSON` on the same payload would write both variables. -/
theorem matching_type_writes_nothing :
    (handleData exampleEnv [] frameA).payload = some payloadA ∧
      (handleData exampleEnv [] frameA).calls = [Call.getState (js "root.10_0_0_5.Type")] ∧
      setStatesFromJSON exampleEnv
          [.obj [(js "homematic_name", .str (js "Device_ip")), (js "value", .str (js "10.0.0.5"))],
           .obj [(js "homematic_name", .str (js "temp1")), (js "value", .num ⟨false, 21, 0⟩)]]
          (ip_to_id (js "10.0.0.5")) =
        .ok [Call.setState (js "root.10_0_0_5.Device_ip") (some (.str (js "10.0.0.5"))) true,
             Call.setState (js "root.10_0_0_5.temp1") (some (.num ⟨false, 21, 0⟩)) true] := by
  decide

/-- C6. With no configured device, the frame of `10.0.0.5` is parsed and the
handler returns through the branch of main.js 179-182 with the buffer still
holding the frame; the next chunk then yields the same payload again. -/
theorem unregistered_keeps_buffer :
    (handleData emptyEnv [] frameA).payload = some payloadA ∧
      (handleData emptyEnv [] frameA).raised = false ∧
      (handleData emptyEnv [] frameA).buffer = frameA ∧
      payloads emptyEnv [] [frameA, js "\x7b\"x\":1\x7d\x03"] = [payloadA, payloadA] := by
  decide

/-- C7. A payload whose variable has no `homematic_name` makes the scan of
main.js 164 throw: the handler raises, issues no call, and the buffer keeps the
frame. -/
theorem nameless_variable_raises :
    (handleData exampleEnv [] frameNameless).payload =
        some (.obj [(js "vars", .arr [.obj [(js "value", .num ⟨false, 1, 0⟩)]])]) ∧
      (handleData exampleEnv [] frameNameless).raised = true ∧
      (handleData exampleEnv [] frameNameless).calls = [] ∧
      (handleData exampleEnv [] frameNameless).buffer = frameNameless := by
  decide

/-- C8, as stated, fails: for the point `temp1` the first matching rule (pattern
`temp`) has no `extensions` field, yet the attribute `unit` of the later rule is
merged, by the loop and by syncStates. -/
theorem later_rule_merged :
    (exampleRules.find? (fun r => r.search (js "temp1"))).map (fun r => r.extensions) = some none ∧
      firstMatchWins (js "temp1") pointTemp1 exampleRules = pointTemp1 ∧
      applyExtensions (js "temp1") pointTemp1 exampleRules =
        pointTemp1 ++ [(js "unit", .str (js "C"))] ∧
      applyExtensions (js "temp1") pointTemp1 exampleRules ≠
        firstMatchWins (js "temp1") pointTemp1 exampleRules ∧
      (syncStates ⟨exampleEnv.devices, exampleEnv.adapter_db_prefix, exampleEnv.nativeIds,
          exampleRules, exampleEnv.getState, exampleEnv.getStates, asciiUpper, exampleEnv.toStr,
          exampleEnv.devicesOther, exampleEnv.nativeOther, exampleEnv.nativeLiteral⟩
          (js "10.0.0.5") [named "temp1"]).calls =
        [Call.getStates (js "wiffi-wz.0.root.10_0_0_5.*"),
         Call.createState (js "root") (js "10_0_0_5") (.str (js "temp1"))
           (pointTemp1 ++ [(js "unit", .str (js "C"))])] := by
  decide

/-- C8, amended. The attributes merged into a point by the loop of main.js
407-414 are those of the first rule, in list order, that both matches the
identifier and has an `extensions` field; no other rule contributes, and without
such a rule the point is unchanged. -/
theorem first_rule_with_extensions_wins (id : JSString) (state : List (JSString × Json))
    (rules : List ExtensionRule) :
    applyExtensions id state rules =
      match rules.find? (fun r => r.search id && r.extensions.isSome) with
      | some r => objectAssign state (r.extensions.getD [])
      | none => state := by
  induction rules with
  | nil => rfl
  | cons r rest ih =>
    unfold applyExtensions
    rw [List.find?_cons]
    cases hs : r.search id with
    | false => simpa using ih
    | true =>
      cases he : r.extensions with
      | none => simpa using ih
      | some cext => simp [he]

theorem digit_not_separator (c : Nat) (h : isDigit c = true) :
    (c == 46 || isSpace c) = false ∧ (c == 95 || isSpace c) = false := by
  simp only [isDigit, Bool.and_eq_true, decide_eq_true_eq] at h
  simp only [isSpace, Bool.or_eq_false_iff, Bool.and_eq_false_iff, beq_eq_false_iff_ne,
    decide_eq_false_iff_not, ne_eq]
  omega

theorem replaceRuns_skip (p : Nat → Bool) (r : Nat) (b : Bool) (c : Nat) (cs : JSString)
    (h : p c = false) : replaceRuns p r b (c :: cs) = c :: replaceRuns p r false cs := by
  simp [replaceRuns, h]

theorem replaceRuns_start (p : Nat → Bool) (r : Nat) (c : Nat) (cs : JSString)
    (h : p c = true) : replaceRuns p r false (c :: cs) = r :: replaceRuns p r true cs := by
  simp [replaceRuns, h]

/-- On an address of digit groups separated by single dots, `id_to_ip` undoes
`ip_to_id`, whatever the run flags at the start. -/
theorem replaceRuns_roundtrip : ∀ (a : JSString) (b b2 : Bool), dottedDigits a = true →
    replaceRuns (fun c => c == 95 || isSpace c) 46 b2
      (replaceRuns (fun c => c == 46 || isSpace c) 95 b a) = a
  | [], _, _, h => by simp [dottedDigits] at h
  | [c], b, b2, h => by
    have hc := digit_not_separator c (by simpa [dottedDigits] using h)
    rw [replaceRuns_skip _ _ _ _ _ hc.1, replaceRuns_skip _ _ _ _ _ hc.2]
    rfl
  | c :: d :: rest, b, b2, h => by
    simp only [dottedDigits, Bool.and_eq_true] at h
    have hc := digit_not_separator c h.1
    rw [replaceRuns_skip _ _ _ _ _ hc.1, replaceRuns_skip _ _ _ _ _ hc.2]
    by_cases hd : d = 46
    · subst hd
      have hr : dottedDigits rest = true := by simpa using h.2
      rw [replaceRuns_start _ _ _ _ (by decide), replaceRuns_start _ _ _ _ (by decide),
        replaceRuns_roundtrip rest true true hr]
    · have hr : dottedDigits (d :: rest) = true := by simpa [hd] using h.2
      rw [replaceRuns_roundtrip (d :: rest) false false hr]

theorem queryDevices_literal (other : JSString → Thrown (List Device)) (devices : List Device)
    (x : JSString) (hx : quotedLiterally x = true) :
    ∃ found, queryDevices other devices x = .ok found ∧
      (found.length = 0 ↔ configured devices x = false) := by
  refine ⟨devices.filter (fun d => decide (d.ip = some x)), by simp [queryDevices, hx], ?_⟩
  unfold configured
  induction devices with
  | nil => simp
  | cons d rest ih =>
    by_cases hd : d.ip = some x
    · simp [List.filter_cons, hd]
    · simp [List.filter_cons, hd]

theorem digit_literal (c : Nat) (h : isDigit c = true) :
    (decide (32 ≤ c) && c != 34 && c != 41 && c != 92 && c != 8232 && c != 8233) = true := by
  simp only [isDigit, Bool.and_eq_true, decide_eq_true_eq] at h
  simp only [Bool.and_eq_true, decide_eq_true_eq, bne_iff_ne, ne_eq]
  omega

theorem dottedDigits_literal : ∀ a : JSString, dottedDigits a = true → quotedLiterally a = true
  | [], h => by simp [dottedDigits] at h
  | [c], h => by
    have hc := digit_literal c (by simpa [dottedDigits] using h)
    simp only [quotedLiterally, List.all_cons, List.all_nil, Bool.and_true]
    exact hc
  | c :: d :: rest, h => by
    simp only [dottedDigits, Bool.and_eq_true] at h
    have hc := digit_literal c h.1
    by_cases hd : d = 46
    · subst hd
      have hr : dottedDigits rest = true := by simpa using h.2
      have ih := dottedDigits_literal rest hr
      unfold quotedLiterally at ih ⊢
      simp only [List.all_cons, hc, ih, Bool.true_and, Bool.and_true]
      decide
    · have hr : dottedDigits (d :: rest) = true := by simpa [hd] using h.2
      have ih := dottedDigits_literal (d :: rest) hr
      unfold quotedLiterally at ih ⊢
      rw [List.all_cons, hc, ih]
      rfl

/-- C10, as stated, fails: with the device `10..0.5` configured, the stored
channel whose id segment is `ip_to_id("10..0.5") = "10_0_5"` is marked for
deletion, because `id_to_ip` gives `10.0.5`. -/
theorem configured_channel_deleted :
    channelSegment (js "wiffi-wz.0.root.10_0_5") = some (ip_to_id (js "10..0.5")) ∧
      id_to_ip (ip_to_id (js "10..0.5")) = js "10.0.5" ∧
      configured [⟨js "wz", some (js "10..0.5"), none⟩] (js "10..0.5") = true ∧
      configToDelete (fun _ => .raised) [⟨js "wz", some (js "10..0.5"), none⟩]
          [js "wiffi-wz.0.root.10_0_5"] =
        .ok [js "10_0_5"] := by
  decide

/-- C10, amended. For addresses made of non-empty digit groups separated by
single dots, `id_to_ip(ip_to_id(a)) = a`, and for stored channels whose id
segments are the `ip_to_id` of such addresses syncConfig marks for deletion
exactly the channels whose address no configured device has, in order. -/
theorem registry_deletion (other : JSString → Thrown (List Device)) (devices : List Device)
    (channels addrs : List JSString)
    (h : List.Forall₂ (fun ch a => channelSegment ch = some (ip_to_id a) ∧ dottedDigits a = true)
      channels addrs) :
    (∀ a ∈ addrs, id_to_ip (ip_to_id a) = a) ∧
      configToDelete other devices channels =
        .ok ((addrs.filter (fun a => !configured devices a)).map ip_to_id) := by
  induction h with
  | nil => exact ⟨by simp, rfl⟩
  | @cons ch a chs as hhead _ ih =>
    have hrt : id_to_ip (ip_to_id a) = a := replaceRuns_roundtrip a false false hhead.2
    refine ⟨?_, ?_⟩
    · intro x hx
      rcases List.mem_cons.1 hx with rfl | hx
      · exact hrt
      · exact ih.1 x hx
    · obtain ⟨found, hq, hlen⟩ :=
        queryDevices_literal other devices a (dottedDigits_literal a hhead.2)
      unfold configToDelete
      rw [hhead.1, ih.2]
      simp only [hrt, hq]
      cases hc : configured devices a with
      | false => simp [hlen.2 hc, List.filter_cons, hc]
      | true =>
        have : ¬ found.length = 0 := by
          rw [hlen]; simp [hc]
        simp [this, List.filter_cons, hc]

/-- Witness of C10: the channels of `10.0.0.5` and `10.0.0.6` with only the
first configured. -/
theorem registry_deletion_witness :
    List.Forall₂ (fun ch a => channelSegment ch = some (ip_to_id a) ∧ dottedDigits a = true)
        [js "wiffi-wz.0.root.10_0_0_5", js "wiffi-wz.0.root.10_0_0_6"]
        [js "10.0.0.5", js "10.0.0.6"] ∧
      configToDelete exampleEnv.devicesOther exampleEnv.devices
          [js "wiffi-wz.0.root.10_0_0_5", js "wiffi-wz.0.root.10_0_0_6"] =
        .ok [js "10_0_0_6"] :=
  have h : List.Forall₂
      (fun ch a => channelSegment ch = some (ip_to_id a) ∧ dottedDigits a = true)
      [js "wiffi-wz.0.root.10_0_0_5", js "wiffi-wz.0.root.10_0_0_6"]
      [js "10.0.0.5", js "10.0.0.6"] :=
    .cons (by decide) (.cons (by decide) .nil)
  ⟨h, (registry_deletion exampleEnv.devicesOther exampleEnv.devices _ _ h).2.trans (by decide)⟩

theorem syncStep_next (rules : List ExtensionRule) (chan : JSString) (db db2 : List JSString)
    (calls calls2 : List Call) (v : Json) (h : syncStep rules chan db calls v = .next db2 calls2) :
    (∀ x ∈ db2, x ∈ db) ∧
      (calls2 = calls ∨ ∃ id st, calls2 = calls ++ [Call.createState (js "root") chan id st]) := by
  unfold syncStep at h
  cases hg : getProp v (js "homematic_name") with
  | raised => simp [hg] at h
  | ok hname =>
    simp only [hg] at h
    cases hf : findInDb db hname with
    | some n =>
      simp only [hf, Step.next.injEq] at h
      obtain ⟨rfl, rfl⟩ := h
      exact ⟨fun x hx => List.mem_of_mem_eraseIdx hx, Or.inl rfl⟩
    | none =>
      simp only [hf] at h
      cases hgd : guarded v (js "homematic_name") with
      | raised => simp [hgd] at h
      | ok o =>
        cases o with
        | none => simp [hgd] at h
        | some id =>
          simp only [hgd] at h
          cases hb : buildState rules v (setProp (js "id") id defaultState) with
          | raised => simp [hb] at h
          | ok st =>
            simp only [hb, Step.next.injEq] at h
            obtain ⟨rfl, rfl⟩ := h
            exact ⟨fun x hx => hx, Or.inr ⟨_, _, rfl⟩⟩

theorem syncLoop_inv (rules : List ExtensionRule) (chan : JSString) :
    ∀ (vars : List Json) (db : List JSString) (calls : List Call),
      (∀ x ∈ (syncLoop rules chan db calls vars).db, x ∈ db) ∧
      deletedPaths (syncLoop rules chan db calls vars).calls = deletedPaths calls := by
  intro vars
  induction vars with
  | nil => intro db calls; exact ⟨fun x hx => hx, rfl⟩
  | cons v rest ih =>
    intro db calls
    unfold syncLoop
    cases hs : syncStep rules chan db calls v with
    | halt r => exact ⟨fun x hx => hx, rfl⟩
    | next db2 calls2 =>
      have hn := syncStep_next rules chan db db2 calls calls2 v hs
      have ih2 := ih db2 calls2
      refine ⟨fun x hx => hn.1 x (ih2.1 x hx), ?_⟩
      show deletedPaths (syncLoop rules chan db2 calls2 rest).calls = deletedPaths calls
      rw [ih2.2]
      rcases hn.2 with h | ⟨id, st, h⟩
      · rw [h]
      · rw [h]
        clear hs ih ih2 hn h
        induction calls with
        | nil => rfl
        | cons c cs ihc => cases c <;> simp [deletedPaths, ihc]

theorem deletedPaths_append (xs ys : List Call) :
    deletedPaths (xs ++ ys) = deletedPaths xs ++ deletedPaths ys := by
  induction xs with
  | nil => rfl
  | cons c cs ih => cases c <;> simp [deletedPaths, ih]

theorem deletedPaths_map (f : JSString → JSString) (ids : List JSString) :
    deletedPaths (ids.map (fun id => Call.delState (f id))) = ids.map f := by
  induction ids with
  | nil => rfl
  | cons c cs ih => simp [deletedPaths, ih]

theorem mem_deletedPaths (p : JSString) (calls : List Call) :
    Call.delState p ∈ calls ↔ p ∈ deletedPaths calls := by
  induction calls with
  | nil => simp [deletedPaths]
  | cons c cs ih => cases c <;> simp [deletedPaths, ih]

theorem queryNative_empty (env : Env) (x : JSString) (found : List JSString)
    (h : queryNative env.nativeOther env.nativeIds x = .ok found) (hlen : found.length = 0) :
    x ∉ env.nativeIds := by
  intro hx
  have hlit := env.nativeLiteral x hx
  simp only [queryNative, hlit, if_true, Thrown.ok.injEq] at h
  subst h
  rw [List.length_eq_zero, List.filter_eq_nil_iff] at hlen
  exact absurd (hlen x hx) (by simp)

theorem mem_statesInDb (env : Env) :
    ∀ (keys stored : List JSString), statesInDb env keys = .ok stored →
      ∀ x ∈ stored, ∃ key ∈ keys, lastSegment key = x ∧ x ∉ env.nativeIds := by
  intro keys
  induction keys with
  | nil =>
    intro stored h x hx
    simp only [statesInDb, Thrown.ok.injEq] at h
    subst h
    simp at hx
  | cons k ks ih =>
    intro stored h x hx
    unfold statesInDb at h
    cases hq : queryNative env.nativeOther env.nativeIds (lastSegment k) with
    | raised => simp [hq] at h
    | ok found =>
      simp only [hq] at h
      cases hr : statesInDb env ks with
      | raised => simp [hr] at h
      | ok more =>
        simp only [hr] at h
        have hmore : ∀ y ∈ more, ∃ key ∈ k :: ks, lastSegment key = y ∧ y ∉ env.nativeIds := by
          intro y hy
          obtain ⟨key, hkey, h1, h2⟩ := ih more hr y hy
          exact ⟨key, List.mem_cons_of_mem _ hkey, h1, h2⟩
        by_cases hlen : found.length = 0
        · rw [if_pos hlen] at h
          cases h
          rcases List.mem_cons.1 hx with rfl | hx
          · exact ⟨k, List.mem_cons_self _ _, rfl, queryNative_empty env _ found hq hlen⟩
          · exact hmore x hx
        · rw [if_neg hlen] at h
          cases h
          exact hmore x hx

theorem syncStates_listed (env : Env) (ip : JSString) (vars : List Json)
    (keys stored : List JSString) (hg : env.getStates (statesPattern env ip) = some keys)
    (hs : statesInDb env keys = .ok stored) :
    syncStates env ip vars =
      if (syncLoop env.rules (ip_to_id ip) stored
          [Call.getStates (statesPattern env ip)] vars).raised then
        ⟨(syncLoop env.rules (ip_to_id ip) stored
          [Call.getStates (statesPattern env ip)] vars).calls, true⟩
      else
        ⟨(syncLoop env.rules (ip_to_id ip) stored
            [Call.getStates (statesPattern env ip)] vars).calls ++
          (syncLoop env.rules (ip_to_id ip) stored
            [Call.getStates (statesPattern env ip)] vars).db.map
              (fun id => Call.delState (statePath ip id)), false⟩ := by
  unfold syncStates
  rw [hg]
  simp only [hs]

/-- C4. Native points are never deleted by reconciliation: every argument that
syncStates passes to delState is `'root.' + ip_to_id(ip) + '.'` followed by the
last path segment of a key of the storage listing, and that segment is not the
id of a native state. -/
theorem native_points_never_deleted (env : Env) (ip : JSString) (vars : List Json)
    (p : JSString) (h : Call.delState p ∈ (syncStates env ip vars).calls) :
    ∃ keys key, env.getStates (statesPattern env ip) = some keys ∧
      key ∈ keys ∧ p = statePath ip (lastSegment key) ∧
      lastSegment key ∉ env.nativeIds := by
  cases hg : env.getStates (statesPattern env ip) with
  | none =>
    unfold syncStates at h
    rw [hg] at h
    simp at h
  | some keys =>
    cases hs : statesInDb env keys with
    | raised =>
      unfold syncStates at h
      rw [hg] at h
      simp [hs] at h
    | ok stored =>
      rw [syncStates_listed env ip vars keys stored hg hs] at h
      have inv := syncLoop_inv env.rules (ip_to_id ip) vars stored
        [Call.getStates (statesPattern env ip)]
      rw [mem_deletedPaths] at h
      split at h
      · rw [inv.2] at h
        simp [deletedPaths] at h
      · rw [deletedPaths_append, inv.2, deletedPaths_map (statePath ip)] at h
        simp only [deletedPaths, List.nil_append, List.mem_map] at h
        obtain ⟨seg, hseg, rfl⟩ := h
        obtain ⟨key, hkey, h1, h2⟩ := mem_statesInDb env keys stored hs seg (inv.1 seg hseg)
        exact ⟨keys, key, rfl, hkey, by rw [h1], by rw [h1]; exact h2⟩

/-- Witness of C4: with the points `Type`, `old` and `temp1` stored and a
payload that reports `temp1`, the point `old` is deleted. -/
theorem native_points_never_deleted_witness :
    Call.delState (js "root.10_0_0_5.old") ∈
        (syncStates storedEnv (js "10.0.0.5") [named "temp1"]).calls ∧
      ∃ keys key,
        storedEnv.getStates (statesPattern storedEnv (js "10.0.0.5")) = some keys ∧
        key ∈ keys ∧
        js "root.10_0_0_5.old" = statePath (js "10.0.0.5") (lastSegment key) ∧
        lastSegment key ∉ storedEnv.nativeIds :=
  ⟨by decide, native_points_never_deleted storedEnv (js "10.0.0.5") [named "temp1"]
    (js "root.10_0_0_5.old") (by decide)⟩

/-! ### Reconciliation -/

theorem lookup_setProp_same (k : JSString) (v : Json) (st : List (JSString × Json)) :
    lookup k (setProp k v st) = some v := by
  induction st with
  | nil => simp [setProp, lookup]
  | cons m ms ih =>
    obtain ⟨l, w⟩ := m
    by_cases h : l = k
    · simp [setProp, lookup, h]
    · simp [setProp, lookup, h, ih]

theorem lookup_setProp_ne (k k2 : JSString) (v : Json) (st : List (JSString × Json))
    (hne : k2 ≠ k) : lookup k (setProp k2 v st) = lookup k st := by
  induction st with
  | nil => simp [setProp, lookup, hne]
  | cons m ms ih =>
    obtain ⟨l, w⟩ := m
    by_cases h : l = k2
    · subst h
      simp [setProp, lookup, hne]
    · by_cases h2 : l = k
      · subst h2
        simp [setProp, lookup, h]
      · simp [setProp, lookup, h, h2, ih]

theorem lookup_objectAssign (k : JSString) (ext : List (JSString × Json))
    (h : lookup k ext = none) :
    ∀ st, lookup k (objectAssign st ext) = lookup k st := by
  induction ext with
  | nil => intro st; rfl
  | cons m ms ih =>
    intro st
    obtain ⟨l, w⟩ := m
    have hl : l ≠ k := by
      intro hEq
      simp [lookup, hEq] at h
    have hms : lookup k ms = none := by
      simpa [lookup, hl] using h
    show lookup k (objectAssign (setProp l w st) ms) = lookup k st
    rw [ih hms, lookup_setProp_ne k l w st hl]

theorem lookup_applyExtensions (k id : JSString) (st : List (JSString × Json))
    (rules : List ExtensionRule)
    (hrules : ∀ r ∈ rules, ∀ ext, r.extensions = some ext → lookup k ext = none) :
    lookup k (applyExtensions id st rules) = lookup k st := by
  induction rules with
  | nil => rfl
  | cons r rest ih =>
    have ih2 := ih (fun r2 hr2 => hrules r2 (List.mem_cons_of_mem _ hr2))
    unfold applyExtensions
    cases hs : r.search id with
    | false => simpa using ih2
    | true =>
      cases he : r.extensions with
      | none => simpa using ih2
      | some cext =>
        simp only [if_true]
        exact lookup_objectAssign k cext (hrules r (List.mem_cons_self _ _) cext he) st

theorem lookup_id_setType (st : List (JSString × Json)) (t : Json) :
    lookup (js "id") (setType st t) = lookup (js "id") st := by
  unfold setType
  repeat' split
  all_goals first
    | rfl
    | exact lookup_setProp_ne _ _ _ _ (by decide)

theorem lookup_id_assemble (n : JSString) (name desc type value : Option Json)
    (state0 : List (JSString × Json)) :
    lookup (js "id") (assemble name (some (.str n)) desc type value state0) = some (.str n) := by
  unfold assemble
  cases name <;> cases desc <;> cases type <;> cases value <;>
    simp only [] <;> (try split) <;>
    simp only [lookup_setProp_same, lookup_id_setType,
      lookup_setProp_ne (js "id") (js "def") _ _ (by decide),
      lookup_setProp_ne (js "id") (js "desc") _ _ (by decide)]

theorem guarded_obj (ms : List (JSString × Json)) (key : JSString)
    (h : lookup (js "hasOwnProperty") ms = none) :
    ∃ o, guarded (.obj ms) key = .ok o ∧
      (∀ n, lookup key ms = some (.str n) → n ≠ [] → o = some (.str n)) ∧
      (lookup key ms = none → o = none) := by
  unfold guarded hasOwn getProp
  simp only [h]
  cases hk : lookup key ms with
  | none => exact ⟨none, by simp, by simp, by simp⟩
  | some v =>
    refine ⟨if truthy? (some v) then some v else none, by simp, ?_, by simp⟩
    intro n hn hne
    cases hn
    cases n with
    | nil => exact absurd rfl hne
    | cons c cs => simp [truthy?, Json.truthy]

theorem buildState_named (rules : List ExtensionRule) (v : Json) (n : JSString)
    (state0 : List (JSString × Json))
    (hrules : ∀ r ∈ rules, ∀ ext, r.extensions = some ext → lookup (js "id") ext = none)
    (hv : NamedRecord v n) :
    ∃ st, buildState rules v state0 = .ok st ∧ lookup (js "id") st = some (.str n) := by
  obtain ⟨ms, rfl, hown, hname, hne⟩ := hv
  obtain ⟨o1, h1, -, -⟩ := guarded_obj ms (js "name") hown
  obtain ⟨o2, h2, h2n, -⟩ := guarded_obj ms (js "homematic_name") hown
  obtain ⟨o3, h3, -, -⟩ := guarded_obj ms (js "desc") hown
  obtain ⟨o4, h4, -, -⟩ := guarded_obj ms (js "type") hown
  obtain ⟨o5, h5, -, -⟩ := guarded_obj ms (js "value") hown
  have ho2 : o2 = some (.str n) := h2n n hname hne
  subst ho2
  unfold buildState
  simp only [h1, h2, h3, h4, h5]
  have hid := lookup_id_assemble n o1 o3 o4 o5 state0
  unfold extend
  cases rules with
  | nil => exact ⟨_, rfl, hid⟩
  | cons r rest =>
    simp only [hid]
    exact ⟨_, rfl, (lookup_applyExtensions _ _ _ _ hrules).trans hid⟩

theorem syncStep_named (rules : List ExtensionRule) (chan : JSString) (db : List JSString)
    (calls : List Call) (v : Json) (n : JSString)
    (hrules : ∀ r ∈ rules, ∀ ext, r.extensions = some ext → lookup (js "id") ext = none)
    (hv : NamedRecord v n) :
    (n ∈ db → syncStep rules chan db calls v = .next (db.eraseIdx (db.indexOf n)) calls) ∧
      (n ∉ db → ∃ st, syncStep rules chan db calls v =
        .next db (calls ++ [Call.createState (js "root") chan (.str n) st])) := by
  have hb := buildState_named rules v n (setProp (js "id") (.str n) defaultState) hrules hv
  obtain ⟨ms, rfl, hown, hname, hne⟩ := hv
  obtain ⟨o2, h2, h2n, -⟩ := guarded_obj ms (js "homematic_name") hown
  have ho2 : o2 = some (.str n) := h2n n hname hne
  subst ho2
  constructor
  · intro hin
    unfold syncStep
    simp [getProp, hname, findInDb, hin]
  · intro hnin
    obtain ⟨st, hst, hid⟩ := hb
    refine ⟨st, ?_⟩
    unfold syncStep
    simp [getProp, hname, findInDb, hnin, h2, hst, hid]

theorem syncStep_nameless (rules : List ExtensionRule) (chan : JSString) (db : List JSString)
    (calls : List Call) (v : Json) (hv : Nameless v) :
    syncStep rules chan db calls v = .halt false := by
  obtain ⟨ms, rfl, hown, hname⟩ := hv
  obtain ⟨o2, h2, -, h2n⟩ := guarded_obj ms (js "homematic_name") hown
  have ho2 : o2 = none := h2n hname
  subst ho2
  unfold syncStep
  simp [getProp, hname, findInDb, h2]

theorem eraseIdx_indexOf (n : JSString) :
    ∀ db : List JSString, db.Nodup → n ∈ db →
      db.eraseIdx (db.indexOf n) = db.filter (fun x => !decide (x = n)) := by
  intro db
  induction db with
  | nil => intro _ h; simp at h
  | cons x xs ih =>
    intro hnd hin
    rw [List.nodup_cons] at hnd
    by_cases hx : x = n
    · subst hx
      have : xs.filter (fun y => !decide (y = x)) = xs := by
        rw [List.filter_eq_self]
        intro a ha
        simp only [Bool.not_eq_true', decide_eq_false_iff_not]
        intro hEq
        exact hnd.1 (hEq ▸ ha)
      simp [List.indexOf_cons, List.filter_cons, this]
    · have hin2 : n ∈ xs := by
        rcases List.mem_cons.1 hin with h | h
        · exact absurd h.symm hx
        · exact h
      have hb : (x == n) = false := by simpa using hx
      rw [List.indexOf_cons, hb, cond_false, List.eraseIdx_cons_succ, ih hnd.2 hin2]
      simp [List.filter_cons, hx]

theorem createdIds_append (xs ys : List Call) :
    createdIds (xs ++ ys) = createdIds xs ++ createdIds ys := by
  induction xs with
  | nil => rfl
  | cons c cs ih => cases c <;> simp [createdIds, ih]

theorem createdIds_delState (f : JSString → JSString) (ids : List JSString) :
    createdIds (ids.map (fun id => Call.delState (f id))) = [] := by
  induction ids with
  | nil => rfl
  | cons c cs ih => simp [createdIds, ih]

theorem syncLoop_named (rules : List ExtensionRule) (chan : JSString) (rest : List Json)
    (hrules : ∀ r ∈ rules, ∀ ext, r.extensions = some ext → lookup (js "id") ext = none)
    (hrest : rest = [] ∨ ∃ v tail, rest = v :: tail ∧ Nameless v)
    (recs : List Json) (names : List JSString) (hrec : List.Forall₂ NamedRecord recs names) :
    names.Nodup → ∀ (db : List JSString) (calls : List Call), db.Nodup →
      (syncLoop rules chan db calls (recs ++ rest)).raised = false ∧
      (syncLoop rules chan db calls (recs ++ rest)).db = db.filter (fun x => decide (x ∉ names)) ∧
      createdIds (syncLoop rules chan db calls (recs ++ rest)).calls =
        createdIds calls ++ (names.filter (fun n => decide (n ∉ db))).map Json.str := by
  induction hrec with
  | nil =>
    intro _ db calls _
    have hres : syncLoop rules chan db calls ([] ++ rest) = ⟨db, calls, false⟩ := by
      rcases hrest with rfl | ⟨v, tail, rfl, hv⟩
      · rfl
      · show syncLoop rules chan db calls (v :: tail) = _
        unfold syncLoop
        rw [syncStep_nameless rules chan db calls v hv]
    rw [hres]
    simp
  | @cons v n vs ns hv _ ih =>
    intro hnd db calls hdb
    rw [List.nodup_cons] at hnd
    have hstep := syncStep_named rules chan db calls v n hrules hv
    show (syncLoop rules chan db calls (v :: (vs ++ rest))).raised = false ∧ _
    by_cases hin : n ∈ db
    · have hs := hstep.1 hin
      have hloop : syncLoop rules chan db calls (v :: (vs ++ rest)) =
          syncLoop rules chan (db.eraseIdx (db.indexOf n)) calls (vs ++ rest) := by
        conv => lhs; unfold syncLoop
        rw [hs]
      rw [List.cons_append, hloop, eraseIdx_indexOf n db hdb hin]
      have ih2 := ih hnd.2 (db.filter (fun x => !decide (x = n))) calls (hdb.filter _)
      refine ⟨ih2.1, ?_, ?_⟩
      · rw [ih2.2.1, List.filter_filter]
        apply List.filter_congr
        intro x _
        simp [List.mem_cons, Bool.and_comm]
      · rw [ih2.2.2]
        congr 2
        rw [List.filter_cons]
        simp only [hin, not_true_eq_false, decide_False, Bool.false_eq_true, if_false]
        apply List.filter_congr
        intro m hm
        have hmn : m ≠ n := fun hEq => hnd.1 (hEq ▸ hm)
        simp [List.mem_filter, hmn]
    · obtain ⟨st, hs⟩ := hstep.2 hin
      have hloop : syncLoop rules chan db calls (v :: (vs ++ rest)) =
          syncLoop rules chan db (calls ++ [Call.createState (js "root") chan (.str n) st])
            (vs ++ rest) := by
        conv => lhs; unfold syncLoop
        rw [hs]
      rw [List.cons_append, hloop]
      have ih2 := ih hnd.2 db (calls ++ [Call.createState (js "root") chan (.str n) st]) hdb
      refine ⟨ih2.1, ?_, ?_⟩
      · rw [ih2.2.1]
        apply List.filter_congr
        intro x hx
        have hxn : x ≠ n := fun hEq => hin (hEq ▸ hx)
        simp [List.mem_cons, hxn]
      · rw [ih2.2.2, createdIds_append, List.filter_cons]
        simp [hin, createdIds]

theorem statesInDb_literal (env : Env) :
    ∀ keys : List JSString, (∀ key ∈ keys, quotedLiterally (lastSegment key) = true) →
      statesInDb env keys = .ok (storedDynamic env.nativeIds keys) := by
  intro keys
  induction keys with
  | nil => intro _; rfl
  | cons k ks ih =>
    intro hlit
    have hk := hlit k (List.mem_cons_self _ _)
    have ih2 := ih (fun key hkey => hlit key (List.mem_cons_of_mem _ hkey))
    unfold statesInDb
    simp only [queryNative, hk, if_true, ih2]
    unfold storedDynamic
    rw [List.map_cons, List.filter_cons]
    by_cases hn : lastSegment k ∈ env.nativeIds
    · have hne : ¬ (env.nativeIds.filter (fun n => decide (n = lastSegment k))).length = 0 := by
        rw [List.length_eq_zero, List.filter_eq_nil_iff]
        intro h
        exact absurd (h _ hn) (by simp)
      simp [hne, hn]
    · have he : (env.nativeIds.filter (fun n => decide (n = lastSegment k))).length = 0 := by
        rw [List.length_eq_zero, List.filter_eq_nil_iff]
        intro a ha
        simp only [decide_eq_true_eq]
        intro hEq
        exact hn (hEq ▸ ha)
      simp [he, hn]

/-- C3, as stated, fails, with the points `Type`, `old` and `temp1` stored. A
variable without `homematic_name` before `temp1` ends the loop, and `temp1`,
which occurs in the payload, is deleted; a payload that repeats `temp1` has it
created although it is stored. -/
theorem reconciliation_not_exact :
    (syncStates storedEnv (js "10.0.0.5")
        [.obj [(js "value", .num ⟨false, 1, 0⟩)], named "temp1"]).calls =
      [Call.getStates (js "wiffi-wz.0.root.10_0_0_5.*"),
       Call.delState (js "root.10_0_0_5.old"), Call.delState (js "root.10_0_0_5.temp1")] ∧
    (syncStates storedEnv (js "10.0.0.5") [named "temp1", named "temp1"]).calls =
      [Call.getStates (js "wiffi-wz.0.root.10_0_0_5.*"),
       Call.createState (js "root") (js "10_0_0_5") (.str (js "temp1")) pointTemp1,
       Call.delState (js "root.10_0_0_5.old")] ∧
    storedDynamic storedEnv.nativeIds
      [js "wiffi-wz.0.root.10_0_0_5.Type", js "wiffi-wz.0.root.10_0_0_5.old",
       js "wiffi-wz.0.root.10_0_0_5.temp1"] = [js "old", js "temp1"] := by
  decide

/-- C3, amended. Let the last segments of the listed keys be strings that the
filter of line 338 quotes literally and let the stored dynamic identifiers be
distinct. Let the payload start with variables that are objects without a
member `hasOwnProperty` and carry distinct non-empty string names, and let it
either end there or go on with such an object without `homematic_name` (which
ends the loop). Let no extension rule set `id`. Then syncStates completes, the
identifiers passed to createState are, in order and once each, the names not
among the stored dynamic identifiers, and the arguments of delState are, in
order and once each, the paths of the stored dynamic identifiers that are not
among these names. -/
theorem reconciliation_exact (env : Env) (ip : JSString) (keys : List JSString)
    (recs rest : List Json) (names : List JSString)
    (hget : env.getStates (statesPattern env ip) = some keys)
    (hlit : ∀ key ∈ keys, quotedLiterally (lastSegment key) = true)
    (hrec : List.Forall₂ NamedRecord recs names)
    (hrest : rest = [] ∨ ∃ v tail, rest = v :: tail ∧ Nameless v)
    (hnames : names.Nodup)
    (hdb : (storedDynamic env.nativeIds keys).Nodup)
    (hrules : ∀ r ∈ env.rules, ∀ ext, r.extensions = some ext → lookup (js "id") ext = none) :
    (syncStates env ip (recs ++ rest)).raised = false ∧
      createdIds (syncStates env ip (recs ++ rest)).calls =
        (names.filter (fun n => decide (n ∉ storedDynamic env.nativeIds keys))).map Json.str ∧
      deletedPaths (syncStates env ip (recs ++ rest)).calls =
        ((storedDynamic env.nativeIds keys).filter (fun x => decide (x ∉ names))).map
          (statePath ip) ∧
      (createdIds (syncStates env ip (recs ++ rest)).calls).Nodup ∧
      (deletedPaths (syncStates env ip (recs ++ rest)).calls).Nodup := by
  have hs := statesInDb_literal env keys hlit
  have hl := syncLoop_named env.rules (ip_to_id ip) rest hrules hrest recs names hrec hnames
    (storedDynamic env.nativeIds keys) [Call.getStates (statesPattern env ip)] hdb
  have hinv := syncLoop_inv env.rules (ip_to_id ip) (recs ++ rest)
    (storedDynamic env.nativeIds keys) [Call.getStates (statesPattern env ip)]
  have hsync := syncStates_listed env ip (recs ++ rest) keys _ hget hs
  simp only [hl.1, Bool.false_eq_true, if_false] at hsync
  have hc : createdIds (syncStates env ip (recs ++ rest)).calls =
      (names.filter (fun n => decide (n ∉ storedDynamic env.nativeIds keys))).map Json.str := by
    rw [hsync]
    simp only []
    rw [createdIds_append, createdIds_delState, hl.2.2]
    simp [createdIds]
  have hd : deletedPaths (syncStates env ip (recs ++ rest)).calls =
      ((storedDynamic env.nativeIds keys).filter (fun x => decide (x ∉ names))).map
        (statePath ip) := by
    rw [hsync]
    simp only []
    rw [deletedPaths_append, deletedPaths_map (statePath ip), hinv.2, hl.2.1]
    simp [deletedPaths]
  refine ⟨by rw [hsync], hc, hd, ?_, ?_⟩
  · rw [hc]
    exact (hnames.filter _).map (fun a b h => by cases h; rfl)
  · rw [hd]
    refine (hdb.filter _).map ?_
    intro a b h
    exact List.append_cancel_left h

/-- Witness of C3: the points `Type`, `old` and `temp1` are stored and the
payload reports `temp1` and `hum`; `hum` is created and `old` deleted. -/
theorem reconciliation_exact_witness :
    createdIds (syncStates storedEnv (js "10.0.0.5") ([named "temp1", named "hum"] ++ [])).calls =
        [.str (js "hum")] ∧
      deletedPaths (syncStates storedEnv (js "10.0.0.5") ([named "temp1", named "hum"] ++ [])).calls =
        [js "root.10_0_0_5.old"] :=
  have h := reconciliation_exact storedEnv (js "10.0.0.5")
    [js "wiffi-wz.0.root.10_0_0_5.Type", js "wiffi-wz.0.root.10_0_0_5.old",
     js "wiffi-wz.0.root.10_0_0_5.temp1"]
    [named "temp1", named "hum"] [] [js "temp1", js "hum"] rfl (by decide)
    (.cons ⟨_, rfl, by decide, by decide, by decide⟩
      (.cons ⟨_, rfl, by decide, by decide, by decide⟩ .nil))
    (Or.inl rfl) (by decide) (by decide) (fun r hr => nomatch hr)
  ⟨h.2.1.trans (by decide), h.2.2.1.trans (by decide)⟩

/-! ### The nan workaround as one scan -/

theorem startsWith_nil (s : JSString) : startsWith [] s = true := by
  cases s <;> rfl

theorem startsWith_cons_cons (p c : Nat) (ps cs : JSString) :
    startsWith (p :: ps) (c :: cs) = (p == c && startsWith ps cs) := rfl

theorem startsWith_append (p s y : JSString) (h : startsWith p s = true) :
    startsWith p (s ++ y) = true := by
  induction p generalizing s with
  | nil => exact startsWith_nil _
  | cons a ps ih =>
    cases s with
    | nil => simp [startsWith] at h
    | cons c cs =>
      simp only [startsWith_cons_cons, Bool.and_eq_true] at h
      rw [List.cons_append, startsWith_cons_cons, h.1, ih cs h.2]
      rfl

theorem startsWith_split (p s : JSString) (h : startsWith p s = true) :
    s = p ++ s.drop p.length := by
  induction p generalizing s with
  | nil => rfl
  | cons a ps ih =>
    cases s with
    | nil => simp [startsWith] at h
    | cons c cs =>
      simp only [startsWith_cons_cons, Bool.and_eq_true, beq_iff_eq] at h
      rw [List.length_cons, List.drop_succ_cons, List.cons_append, ← ih cs h.2, h.1]

theorem startsWith_self_append (p z : JSString) : startsWith p (p ++ z) = true := by
  induction p with
  | nil => exact startsWith_nil _
  | cons a ps ih => rw [List.cons_append, startsWith_cons_cons, ih]; simp

/-- A text that starts the pattern only once something is appended is made of
code units of the pattern. -/
theorem mem_of_startsWith_append (p cs y : JSString) (h : startsWith p (cs ++ y) = true)
    (hn : startsWith p cs = false) : ∀ c ∈ cs, c ∈ p := by
  induction p generalizing cs with
  | nil => rw [startsWith_nil] at hn; cases hn
  | cons a ps ih =>
    cases cs with
    | nil => intro c hc; cases hc
    | cons d ds =>
      rw [List.cons_append, startsWith_cons_cons, Bool.and_eq_true, beq_iff_eq] at h
      rw [startsWith_cons_cons, h.1] at hn
      have hn2 : startsWith ps ds = false := by simpa using hn
      intro c hc
      rcases List.mem_cons.1 hc with rfl | hc
      · rw [h.1]; exact List.mem_cons_self _ _
      · exact List.mem_cons_of_mem _ (ih ds h.2 hn2 c hc)

theorem replaceAllAux_drop (pat rep : JSString) :
    ∀ (s : JSString) (k : Nat), replaceAllAux pat rep k s = replaceAllAux pat rep 0 (s.drop k) := by
  intro s
  induction s with
  | nil => intro k; cases k <;> rfl
  | cons c cs ih =>
    intro k
    cases k with
    | zero => rfl
    | succ k => rw [List.drop_succ_cons, ← ih k]; rfl

theorem nanScanAux_drop :
    ∀ (s : JSString) (k : Nat), nanScanAux k s = nanScanAux 0 (s.drop k) := by
  intro s
  induction s with
  | nil => intro k; cases k <;> rfl
  | cons c cs ih =>
    intro k
    cases k with
    | zero => rfl
    | succ k => rw [List.drop_succ_cons, ← ih k]; rfl

theorem replaceAll_nil (pat rep : JSString) : replaceAll [] pat rep = [] := rfl

theorem replaceAll_cons (pat rep : JSString) (c : Nat) (cs : JSString) :
    replaceAll (c :: cs) pat rep =
      if startsWith pat (c :: cs) then rep ++ replaceAll (cs.drop (pat.length - 1)) pat rep
      else c :: replaceAll cs pat rep := by
  unfold replaceAll
  conv => lhs; unfold replaceAllAux
  rw [replaceAllAux_drop pat rep cs (pat.length - 1)]

theorem nanScan_nil : nanScan [] = [] := rfl

theorem nanScan_cons (c : Nat) (cs : JSString) :
    nanScan (c :: cs) =
      if startsWith (js ":nan") (c :: cs) then js ":\"nan\"" ++ nanScan (cs.drop 3)
      else if startsWith (js ":'nan'") (c :: cs) then js ":\"nan\"" ++ nanScan (cs.drop 5)
      else c :: nanScan cs := by
  unfold nanScan
  conv => lhs; unfold nanScanAux
  rw [nanScanAux_drop cs 3, nanScanAux_drop cs 5]

theorem pat1_eq : js ":nan" = 58 :: js "nan" := by decide
theorem pat2_eq : js ":'nan'" = 58 :: js "'nan'" := by decide
theorem rep_eq : js ":\"nan\"" = 58 :: js "\"nan\"" := by decide

theorem nanScan_other (c : Nat) (cs : JSString) (hc : c ≠ 58) :
    nanScan (c :: cs) = c :: nanScan cs := by
  have h : (58 == c) = false := by simpa using fun h => hc h.symm
  rw [nanScan_cons, pat1_eq, pat2_eq, startsWith_cons_cons, startsWith_cons_cons, h]
  rfl

theorem nanScan_colon (cs : JSString) :
    nanScan (58 :: cs) =
      if startsWith (js "nan") cs then js ":\"nan\"" ++ nanScan (cs.drop 3)
      else if startsWith (js "'nan'") cs then js ":\"nan\"" ++ nanScan (cs.drop 5)
      else 58 :: nanScan cs := by
  rw [nanScan_cons, pat1_eq, pat2_eq, startsWith_cons_cons, startsWith_cons_cons]
  simp

theorem replaceAll_other (pat rep : JSString) (c : Nat) (cs : JSString)
    (h : startsWith pat (c :: cs) = false) :
    replaceAll (c :: cs) pat rep = c :: replaceAll cs pat rep := by
  rw [replaceAll_cons, h]
  rfl

theorem nanScan_head_colon (cs : JSString) : ∃ w, nanScan (58 :: cs) = 58 :: w := by
  rw [nanScan_colon, rep_eq]
  split
  · exact ⟨_, rfl⟩
  · split
    · exact ⟨_, rfl⟩
    · exact ⟨_, rfl⟩

/-- The scan does not change whether a pattern without colon starts the text. -/
theorem startsWith_nanScan (y : JSString) :
    ∀ (p cs : JSString), 58 ∉ p → startsWith p (nanScan cs ++ y) = startsWith p (cs ++ y) := by
  intro p
  induction p with
  | nil => intro cs _; rw [startsWith_nil, startsWith_nil]
  | cons a ps ih =>
    intro cs hp
    have ha : a ≠ 58 := fun h => hp (h ▸ List.mem_cons_self _ _)
    have hps : 58 ∉ ps := fun h => hp (List.mem_cons_of_mem _ h)
    cases cs with
    | nil => rfl
    | cons d ds =>
      by_cases hd : d = 58
      · subst hd
        obtain ⟨w, hw⟩ := nanScan_head_colon ds
        have hb : (a == 58) = false := by simpa using ha
        rw [hw, List.cons_append, List.cons_append, startsWith_cons_cons, startsWith_cons_cons, hb]
        rfl
      · rw [nanScan_other d ds hd, List.cons_append, List.cons_append, startsWith_cons_cons,
          startsWith_cons_cons, ih ds hps]

theorem nanScan_no_colon : ∀ cs : JSString, 58 ∉ cs → nanScan cs = cs := by
  intro cs
  induction cs with
  | nil => intro _; rfl
  | cons c cs ih =>
    intro h
    have hc : c ≠ 58 := fun hEq => h (hEq ▸ List.mem_cons_self _ _)
    rw [nanScan_other c cs hc, ih (fun hm => h (List.mem_cons_of_mem _ hm))]

theorem nanScan_leading (u z : JSString) (hu : 58 ∉ u) : nanScan (u ++ z) = u ++ nanScan z := by
  induction u with
  | nil => rfl
  | cons c cs ih =>
    have hc : c ≠ 58 := fun hEq => hu (hEq ▸ List.mem_cons_self _ _)
    rw [List.cons_append, nanScan_other c _ hc, ih (fun hm => hu (List.mem_cons_of_mem _ hm))]
    rfl

theorem nanScan_rep (z : JSString) : nanScan (js ":\"nan\"" ++ z) = js ":\"nan\"" ++ nanScan z := by
  rw [rep_eq, List.cons_append, nanScan_colon]
  have h1 : startsWith (js "nan") (js "\"nan\"" ++ z) = false := rfl
  have h2 : startsWith (js "'nan'") (js "\"nan\"" ++ z) = false := rfl
  rw [h1, h2]
  simp only [Bool.false_eq_true, if_false]
  rw [nanScan_leading (js "\"nan\"") z (by decide)]
  rfl

theorem nanScan_token (tok : NanToken) (z : JSString) :
    nanScan (58 :: (tok.text ++ z)) = js ":\"nan\"" ++ nanScan z := by
  cases tok with
  | bare =>
    rw [nanScan_colon]
    have h1 : startsWith (js "nan") (NanToken.bare.text ++ z) = true :=
      startsWith_self_append (js "nan") z
    rw [h1, if_pos rfl]
    rfl
  | quoted =>
    rw [nanScan_colon]
    have h1 : startsWith (js "nan") (NanToken.quoted.text ++ z) = false := rfl
    have h2 : startsWith (js "'nan'") (NanToken.quoted.text ++ z) = true :=
      startsWith_self_append (js "'nan'") z
    rw [h1, h2]
    simp only [Bool.false_eq_true, if_false, if_true]
    rfl

/-- Scanning the scanned buffer with a new chunk appended gives the scan of the
whole: the workaround can be applied chunk by chunk. -/
theorem nanScan_append_bound (y : JSString) :
    ∀ (n : Nat) (x : JSString), x.length ≤ n → nanScan (nanScan x ++ y) = nanScan (x ++ y) := by
  intro n
  induction n with
  | zero =>
    intro x hx
    have : x = [] := List.length_eq_zero.1 (Nat.le_zero.1 hx)
    subst this
    rfl
  | succ n ih =>
    intro x hx
    cases x with
    | nil => rfl
    | cons c cs =>
      have hcs : cs.length ≤ n := by simpa using hx
      by_cases hc : c = 58
      · subst hc
        by_cases h1 : startsWith (js "nan") cs = true
        · have hsplit := startsWith_split (js "nan") cs h1
          rw [nanScan_colon cs, if_pos h1, List.append_assoc, nanScan_rep,
            ih (cs.drop 3) (by rw [List.length_drop]; omega), List.cons_append,
            nanScan_colon (cs ++ y), if_pos (startsWith_append _ _ _ h1)]
          have hlen : 3 ≤ cs.length := by
            have := congrArg List.length hsplit
            simp only [List.length_append] at this
            have h3 : (js "nan").length = 3 := rfl
            omega
          rw [List.drop_append_of_le_length hlen]
        · have h1f : startsWith (js "nan") cs = false := by simpa using h1
          by_cases h2 : startsWith (js "'nan'") cs = true
          · have hsplit := startsWith_split (js "'nan'") cs h2
            have h1y : startsWith (js "nan") (cs ++ y) = false := by
              rw [hsplit]; rfl
            rw [nanScan_colon cs, h1f, if_neg (by simp), if_pos h2, List.append_assoc, nanScan_rep,
              ih (cs.drop 5) (by rw [List.length_drop]; omega), List.cons_append,
              nanScan_colon (cs ++ y), h1y, if_neg (by simp),
              if_pos (startsWith_append _ _ _ h2)]
            have hlen : 5 ≤ cs.length := by
              have := congrArg List.length hsplit
              simp only [List.length_append] at this
              have h5 : (js "'nan'").length = 5 := rfl
              omega
            rw [List.drop_append_of_le_length hlen]
          · have h2f : startsWith (js "'nan'") cs = false := by simpa using h2
            have hx0 : nanScan (58 :: cs) = 58 :: nanScan cs := by
              rw [nanScan_colon, h1f, h2f]
              simp
            by_cases h1y : startsWith (js "nan") (cs ++ y) = true
            · have hmem := mem_of_startsWith_append _ cs y h1y h1f
              have hno : 58 ∉ cs := fun h => absurd (hmem 58 h) (by decide)
              rw [hx0, nanScan_no_colon cs hno]
            · by_cases h2y : startsWith (js "'nan'") (cs ++ y) = true
              · have hmem := mem_of_startsWith_append _ cs y h2y h2f
                have hno : 58 ∉ cs := fun h => absurd (hmem 58 h) (by decide)
                rw [hx0, nanScan_no_colon cs hno]
              · have h1yf : startsWith (js "nan") (cs ++ y) = false := by simpa using h1y
                have h2yf : startsWith (js "'nan'") (cs ++ y) = false := by simpa using h2y
                have k1 := startsWith_nanScan y (js "nan") cs (by decide)
                have k2 := startsWith_nanScan y (js "'nan'") cs (by decide)
                rw [hx0, List.cons_append, List.cons_append, nanScan_colon, nanScan_colon,
                  k1, k2, h1yf, h2yf]
                simp only [Bool.false_eq_true, if_false]
                rw [ih cs hcs]
      · rw [nanScan_other c cs hc, List.cons_append, List.cons_append, nanScan_other c _ hc,
          nanScan_other c _ hc, ih cs hcs]

theorem nanScan_append (x y : JSString) : nanScan (nanScan x ++ y) = nanScan (x ++ y) :=
  nanScan_append_bound y x.length x (Nat.le_refl _)

theorem replaceAll_no_colon (pat rep : JSString) (hp : ∃ ps, pat = 58 :: ps) (u z : JSString)
    (hu : 58 ∉ u) : replaceAll (u ++ z) pat rep = u ++ replaceAll z pat rep := by
  obtain ⟨ps, rfl⟩ := hp
  induction u with
  | nil => rfl
  | cons c cs ih =>
    have hne : c ≠ 58 := fun hEq => hu (hEq ▸ List.mem_cons_self _ _)
    have hc : (58 == c) = false := by simpa using fun h => hne h.symm
    rw [List.cons_append, replaceAll_other _ _ c _ (by rw [startsWith_cons_cons, hc]; rfl),
      ih (fun hm => hu (List.mem_cons_of_mem _ hm))]
    rfl

theorem replaceAll_head_colon (ps rep2 : JSString) (cs : JSString) :
    ∃ w, replaceAll (58 :: cs) (58 :: ps) (58 :: rep2) = 58 :: w := by
  rw [replaceAll_cons]
  split
  · exact ⟨_, rfl⟩
  · exact ⟨_, rfl⟩

/-- The first replacement does not change whether a pattern without colon
starts the text. -/
theorem startsWith_replaceAll (ps rep2 : JSString) :
    ∀ (p cs : JSString), 58 ∉ p →
      startsWith p (replaceAll cs (58 :: ps) (58 :: rep2)) = startsWith p cs := by
  intro p
  induction p with
  | nil => intro cs _; rw [startsWith_nil, startsWith_nil]
  | cons a qs ih =>
    intro cs hp
    have ha : a ≠ 58 := fun h => hp (h ▸ List.mem_cons_self _ _)
    have hqs : 58 ∉ qs := fun h => hp (List.mem_cons_of_mem _ h)
    cases cs with
    | nil => rfl
    | cons d ds =>
      by_cases hd : d = 58
      · subst hd
        obtain ⟨w, hw⟩ := replaceAll_head_colon ps rep2 ds
        have hb : (a == 58) = false := by simpa using ha
        rw [hw, startsWith_cons_cons, startsWith_cons_cons, hb]
        rfl
      · have hdc : (58 == d) = false := by simpa using fun h => hd h.symm
        rw [replaceAll_other _ _ d ds (by rw [startsWith_cons_cons, hdc]; rfl),
          startsWith_cons_cons, startsWith_cons_cons, ih ds hqs]

/-- The nan workaround of main.js 108-109 is the scan. -/
theorem nanWorkaround_eq_bound :
    ∀ (n : Nat) (x : JSString), x.length ≤ n → nanWorkaround x = nanScan x := by
  intro n
  induction n with
  | zero =>
    intro x hx
    have : x = [] := List.length_eq_zero.1 (Nat.le_zero.1 hx)
    subst this
    rfl
  | succ n ih =>
    intro x hx
    cases x with
    | nil => rfl
    | cons c cs =>
      have hcs : cs.length ≤ n := by simpa using hx
      have ihcs := ih cs hcs
      unfold nanWorkaround at ih ihcs ⊢
      by_cases hc : c = 58
      · subst hc
        by_cases h1 : startsWith (js "nan") cs = true
        · have hsw : startsWith (js ":nan") (58 :: cs) = true := by
            rw [pat1_eq, startsWith_cons_cons, h1]; rfl
          have hrep := nanScan_rep (nanScan (cs.drop 3))
          rw [replaceAll_cons, if_pos hsw, nanScan_colon, if_pos h1]
          have hl : (js ":nan").length - 1 = 3 := rfl
          rw [hl]
          have h2 : replaceAll (js ":\"nan\"" ++ replaceAll (cs.drop 3) (js ":nan") (js ":\"nan\""))
              (js ":'nan'") (js ":\"nan\"") =
              js ":\"nan\"" ++ replaceAll (replaceAll (cs.drop 3) (js ":nan") (js ":\"nan\""))
                (js ":'nan'") (js ":\"nan\"") := by
            have hq : ∀ z, startsWith (js ":'nan'") (58 :: (js "\"nan\"" ++ z)) = false :=
              fun _ => rfl
            rw [rep_eq, List.cons_append, replaceAll_other _ _ 58 _ (hq _),
              replaceAll_no_colon _ _ ⟨_, pat2_eq⟩ (js "\"nan\"") _ (by decide)]
            rfl
          rw [h2, ih (cs.drop 3) (by rw [List.length_drop]; omega)]
        · have h1f : startsWith (js "nan") cs = false := by simpa using h1
          have hsw : startsWith (js ":nan") (58 :: cs) = false := by
            rw [pat1_eq, startsWith_cons_cons, h1f]; rfl
          rw [replaceAll_other _ _ 58 cs hsw]
          by_cases h2 : startsWith (js "'nan'") cs = true
          · have hsplit := startsWith_split (js "'nan'") cs h2
            have hl5 : (js "'nan'").length = 5 := rfl
            rw [hl5] at hsplit
            have hr1 : replaceAll cs (js ":nan") (js ":\"nan\"") =
                js "'nan'" ++ replaceAll (cs.drop 5) (js ":nan") (js ":\"nan\"") := by
              conv => lhs; rw [hsplit]
              exact replaceAll_no_colon _ _ ⟨_, pat1_eq⟩ (js "'nan'") _ (by decide)
            have hsw2 : startsWith (js ":'nan'")
                (58 :: (js "'nan'" ++ replaceAll (cs.drop 5) (js ":nan") (js ":\"nan\""))) = true := by
              rw [pat2_eq, startsWith_cons_cons, startsWith_self_append]; rfl
            have hl : (js ":'nan'").length - 1 = 5 := rfl
            rw [hr1, replaceAll_cons, if_pos hsw2, hl, nanScan_colon, h1f, if_neg (by simp),
              if_pos h2]
            have hd : (js "'nan'" ++ replaceAll (cs.drop 5) (js ":nan") (js ":\"nan\"")).drop 5 =
                replaceAll (cs.drop 5) (js ":nan") (js ":\"nan\"") :=
              List.drop_left (js "'nan'") _
            rw [hd, ih (cs.drop 5) (by rw [List.length_drop]; omega)]
          · have h2f : startsWith (js "'nan'") cs = false := by simpa using h2
            have hk : startsWith (js "'nan'") (replaceAll cs (js ":nan") (js ":\"nan\"")) = false := by
              have := startsWith_replaceAll (js "nan") (js "\"nan\"") (js "'nan'") cs (by decide)
              rw [← pat1_eq, ← rep_eq] at this
              rw [this, h2f]
            have hsw2 : startsWith (js ":'nan'")
                (58 :: replaceAll cs (js ":nan") (js ":\"nan\"")) = false := by
              rw [pat2_eq, startsWith_cons_cons, hk]; rfl
            rw [replaceAll_other _ _ 58 _ hsw2, ihcs, nanScan_colon, h1f, h2f]
            simp
      · have hdc : (58 == c) = false := by simpa using fun h => hc h.symm
        rw [replaceAll_other _ _ c cs (by rw [pat1_eq, startsWith_cons_cons, hdc]; rfl),
          replaceAll_other _ _ c _ (by rw [pat2_eq, startsWith_cons_cons, hdc]; rfl),
          ihcs, nanScan_other c cs hc]

theorem nanWorkaround_eq (x : JSString) : nanWorkaround x = nanScan x :=
  nanWorkaround_eq_bound x.length x (Nat.le_refl _)

/-- The workaround applied to the worked-around buffer with a new chunk
appended is the workaround of the whole text received. -/
theorem nanWorkaround_append (x y : JSString) :
    nanWorkaround (nanWorkaround x ++ y) = nanWorkaround (x ++ y) := by
  rw [nanWorkaround_eq, nanWorkaround_eq, nanWorkaround_eq, nanScan_append]

/-! ### `JSON.parse` rejects control characters -/

theorem Reads.refl (c : Nat) (s : JSString) : Reads c s s := ⟨[], rfl, by simp⟩

theorem Reads.trans {c : Nat} {s r t : JSString} (h1 : Reads c s r) (h2 : Reads c r t) :
    Reads c s t := by
  obtain ⟨u, rfl, hu⟩ := h1
  obtain ⟨w, rfl, hw⟩ := h2
  exact ⟨u ++ w, by simp, by simp [hu, hw]⟩

theorem Reads.cons {c d : Nat} {s r : JSString} (hd : d ≠ c) (h : Reads c s r) :
    Reads c (d :: s) r := by
  obtain ⟨u, rfl, hu⟩ := h
  exact ⟨d :: u, rfl, by simp [hu, Ne.symm hd]⟩

theorem Reads.dropWhile (c : Nat) (p : Nat → Bool) (hp : p c = false) (s : JSString) :
    Reads c s (s.dropWhile p) := by
  refine ⟨s.takeWhile p, (List.takeWhile_append_dropWhile p s).symm, ?_⟩
  intro h
  have := List.mem_takeWhile_imp h
  rw [hp] at this
  cases this

theorem Reads.drop (c : Nat) (p s : JSString) (hp : c ∉ p) (h : startsWith p s = true) :
    Reads c s (s.drop p.length) :=
  ⟨p, startsWith_split p s h, hp⟩

theorem Reads.mem {c : Nat} {s r : JSString} (h : Reads c s r) (hc : c ∈ s) : c ∈ r := by
  obtain ⟨u, rfl, hu⟩ := h
  rcases List.mem_append.1 hc with h | h
  · exact absurd h hu
  · exact h

theorem hexVal_ne (c a : Nat) (hc : c < 32) (h : (hexVal a).isSome = true) : a ≠ c := by
  intro hEq
  subst hEq
  unfold hexVal isDigit at h
  have h1 : ¬ (48 ≤ a) := by omega
  have h2 : ¬ (97 ≤ a ∧ a ≤ 102) := by omega
  have h3 : ¬ (65 ≤ a ∧ a ≤ 70) := by omega
  simp [h1, h2, h3] at h

theorem escapeUnit_ne (c e : Nat) (hc : c < 32) (h : (escapeUnit e).isSome = true) : e ≠ c := by
  intro hEq
  subst hEq
  unfold escapeUnit at h
  have : ∀ k, 32 ≤ k → (e == k) = false := by
    intro k hk
    simp only [beq_eq_false_iff_ne, ne_eq]
    omega
  simp [this] at h

theorem parseStringBody_reads (c : Nat) (hc : c < 32) :
    ∀ (n : Nat) (s x r : JSString), s.length ≤ n → parseStringBody s = some (x, r) →
      Reads c s r := by
  intro n
  induction n with
  | zero =>
    intro s x r hs h
    have : s = [] := List.length_eq_zero.1 (Nat.le_zero.1 hs)
    subst this
    simp [parseStringBody] at h
  | succ n ih =>
    intro s x r hs h
    cases s with
    | nil => simp [parseStringBody] at h
    | cons ch cs =>
      have hcs : cs.length ≤ n := by simpa using hs
      unfold parseStringBody at h
      split at h
      · rename_i hq
        simp only [Option.some.injEq, Prod.mk.injEq] at h
        obtain ⟨-, rfl⟩ := h
        have : ch ≠ c := by
          have : ch = 34 := by simpa using hq
          omega
        exact Reads.cons this (Reads.refl _ _)
      · split at h
        · rename_i hq hb
          have hch : ch ≠ c := by
            have : ch = 92 := by simpa using hb
            omega
          split at h
          · cases h
          · rename_i e es
            split at h
            · rename_i he
              have hec : e ≠ c := by
                have : e = 117 := by simpa using he
                omega
              split at h
              · rename_i a b c2 d rest
                split at h
                · rename_i x1 y1 z1 w1 ha hb2 hc2 hd
                  simp only [Option.map_eq_some', Prod.exists] at h
                  obtain ⟨x2, r2, hrec, hres⟩ := h
                  simp only [Prod.mk.injEq] at hres
                  obtain ⟨-, rfl⟩ := hres
                  have hlen : rest.length ≤ n := by
                    simp only [List.length_cons] at hcs
                    omega
                  have := ih rest x2 r2 hlen hrec
                  exact Reads.cons hch (Reads.cons hec
                    (Reads.cons (hexVal_ne c a hc (by rw [ha]; rfl))
                    (Reads.cons (hexVal_ne c b hc (by rw [hb2]; rfl))
                    (Reads.cons (hexVal_ne c c2 hc (by rw [hc2]; rfl))
                    (Reads.cons (hexVal_ne c d hc (by rw [hd]; rfl)) this)))))
                · cases h
              · cases h
            · split at h
              · rename_i u hu
                simp only [Option.map_eq_some', Prod.exists] at h
                obtain ⟨x2, r2, hrec, hres⟩ := h
                simp only [Prod.mk.injEq] at hres
                obtain ⟨-, rfl⟩ := hres
                have hlen : es.length ≤ n := by
                  simp only [List.length_cons] at hcs
                  omega
                exact Reads.cons hch (Reads.cons (escapeUnit_ne c e hc (by rw [hu]; rfl))
                  (ih es x2 r2 hlen hrec))
              · cases h
        · split at h
          · cases h
          · rename_i hq hb hlt
            simp only [Option.map_eq_some', Prod.exists] at h
            obtain ⟨x2, r2, hrec, hres⟩ := h
            simp only [Prod.mk.injEq] at hres
            obtain ⟨-, rfl⟩ := hres
            have hch : ch ≠ c := by omega
            exact Reads.cons hch (ih cs x2 r2 hcs hrec)

theorem isDigit_control (c : Nat) (hc : c < 32) : isDigit c = false := by
  unfold isDigit
  have : ¬ (48 ≤ c) := by omega
  simp [this]

theorem Reads.digits (c : Nat) (hc : c < 32) (s : JSString) :
    Reads c s (s.dropWhile isDigit) :=
  Reads.dropWhile c isDigit (isDigit_control c hc) s

theorem Reads.skipWs (c : Nat) (hws : isJsonWs c = false) (s : JSString) :
    Reads c s (skipWs s) :=
  Reads.dropWhile c isJsonWs hws s

theorem parseFrac_reads (c : Nat) (hc : c < 32) (s fd r : JSString)
    (h : parseFrac s = some (fd, r)) : Reads c s r := by
  unfold parseFrac at h
  split at h
  · rename_i r0
    split at h
    · cases h
    · simp only [Option.some.injEq, Prod.mk.injEq] at h
      obtain ⟨-, rfl⟩ := h
      exact Reads.cons (by omega) (Reads.digits c hc r0)
  · simp only [Option.some.injEq, Prod.mk.injEq] at h
    obtain ⟨-, rfl⟩ := h
    exact Reads.refl _ _

theorem parseExpDigits_reads (c : Nat) (hc : c < 32) (neg : Bool) (s : JSString) (e : Int)
    (r : JSString) (h : parseExpDigits neg s = some (e, r)) : Reads c s r := by
  unfold parseExpDigits at h
  split at h
  · cases h
  · simp only [Option.some.injEq, Prod.mk.injEq] at h
    obtain ⟨-, rfl⟩ := h
    exact Reads.digits c hc s

theorem parseExp_reads (c : Nat) (hc : c < 32) (s : JSString) (e : Int)
    (r : JSString) (h : parseExp s = some (e, r)) : Reads c s r := by
  unfold parseExp at h
  split at h
  · rename_i ech r0
    split at h
    · rename_i he
      have hech : ech ≠ c := by
        simp only [Bool.or_eq_true, beq_iff_eq] at he
        omega
      split at h
      · exact Reads.cons hech (Reads.cons (by omega) (parseExpDigits_reads c hc _ _ _ _ h))
      · exact Reads.cons hech (Reads.cons (by omega) (parseExpDigits_reads c hc _ _ _ _ h))
      · exact Reads.cons hech (parseExpDigits_reads c hc _ _ _ _ h)
    · simp only [Option.some.injEq, Prod.mk.injEq] at h
      obtain ⟨-, rfl⟩ := h
      exact Reads.refl _ _
  · simp only [Option.some.injEq, Prod.mk.injEq] at h
    obtain ⟨-, rfl⟩ := h
    exact Reads.refl _ _

theorem parseUnsigned_reads (c : Nat) (hc : c < 32) (neg : Bool) (s : JSString) (n : JNum)
    (r : JSString) (h : parseUnsigned neg s = some (n, r)) : Reads c s r := by
  unfold parseUnsigned at h
  split at h
  · cases h
  · rename_i d r0
    split at h
    · cases h
    · rename_i hd
      have hdc : d ≠ c := by
        intro hEq
        subst hEq
        rw [isDigit_control d hc] at hd
        simp at hd
      simp only [] at h
      split at h
      · cases h
      · rename_i fracDs s3 hfrac
        split at h
        · cases h
        · rename_i e s4 hexp
          simp only [Option.some.injEq, Prod.mk.injEq] at h
          obtain ⟨-, rfl⟩ := h
          have h1 : Reads c r0 (if (d == 48) = true then r0 else r0.dropWhile isDigit) := by
            split
            · exact Reads.refl _ _
            · exact Reads.digits c hc r0
          exact Reads.cons hdc (h1.trans ((parseFrac_reads c hc _ _ _ hfrac).trans
            (parseExp_reads c hc _ _ _ hexp)))

theorem parseNumber_reads (c : Nat) (hc : c < 32) (s : JSString) (n : JNum)
    (r : JSString) (h : parseNumber s = some (n, r)) : Reads c s r := by
  unfold parseNumber at h
  split at h
  · exact Reads.cons (by omega) (parseUnsigned_reads c hc _ _ _ _ h)
  · exact parseUnsigned_reads c hc _ _ _ _ h

theorem parse_reads (c : Nat) (hc : c < 32) (hws : isJsonWs c = false) :
    ∀ fuel : Nat,
      (∀ s v r, parseValue fuel s = some (v, r) → Reads c s r) ∧
      (∀ s l r, parseElements fuel s = some (l, r) → Reads c s r) ∧
      (∀ s l r, parseMembers fuel s = some (l, r) → Reads c s r) := by
  intro fuel
  induction fuel with
  | zero =>
    refine ⟨?_, ?_, ?_⟩ <;> intro s v r h
    · simp [parseValue] at h
    · simp [parseElements] at h
    · simp [parseMembers] at h
  | succ fuel ih =>
    obtain ⟨ihV, ihE, ihM⟩ := ih
    refine ⟨?_, ?_, ?_⟩
    · intro s v r h
      unfold parseValue at h
      split at h
      · cases h
      · rename_i ch cs
        split at h
        · rename_i hq
          have hch : ch ≠ c := by
            have : ch = 123 := by simpa using hq
            omega
          split at h
          · rename_i r0 hsk
            simp only [Option.some.injEq, Prod.mk.injEq] at h
            obtain ⟨-, rfl⟩ := h
            have h1 := Reads.skipWs c hws cs
            rw [hsk] at h1
            exact Reads.cons hch (h1.trans (Reads.cons (by omega) (Reads.refl _ _)))
          · simp only [Option.map_eq_some', Prod.exists] at h
            obtain ⟨l, r2, hrec, hres⟩ := h
            simp only [Prod.mk.injEq] at hres
            obtain ⟨-, rfl⟩ := hres
            exact Reads.cons hch ((Reads.skipWs c hws cs).trans (ihM _ _ _ hrec))
        · split at h
          · rename_i hq hb
            have hch : ch ≠ c := by
              have : ch = 91 := by simpa using hb
              omega
            split at h
            · rename_i r0 hsk
              simp only [Option.some.injEq, Prod.mk.injEq] at h
              obtain ⟨-, rfl⟩ := h
              have h1 := Reads.skipWs c hws cs
              rw [hsk] at h1
              exact Reads.cons hch (h1.trans (Reads.cons (by omega) (Reads.refl _ _)))
            · simp only [Option.map_eq_some', Prod.exists] at h
              obtain ⟨l, r2, hrec, hres⟩ := h
              simp only [Prod.mk.injEq] at hres
              obtain ⟨-, rfl⟩ := hres
              exact Reads.cons hch ((Reads.skipWs c hws cs).trans (ihE _ _ _ hrec))
          · split at h
            · rename_i hq hb hs
              have hch : ch ≠ c := by
                have : ch = 34 := by simpa using hs
                omega
              simp only [Option.map_eq_some', Prod.exists] at h
              obtain ⟨x, r2, hrec, hres⟩ := h
              simp only [Prod.mk.injEq] at hres
              obtain ⟨-, rfl⟩ := hres
              exact Reads.cons hch (parseStringBody_reads c hc _ _ _ _ (Nat.le_refl _) hrec)
            · split at h
              · rename_i ht
                simp only [Option.some.injEq, Prod.mk.injEq] at h
                obtain ⟨-, rfl⟩ := h
                have := Reads.drop c (js "true") (ch :: cs)
                  (by intro hm; simp [js, utf16] at hm; omega) ht
                exact this
              · split at h
                · rename_i ht
                  simp only [Option.some.injEq, Prod.mk.injEq] at h
                  obtain ⟨-, rfl⟩ := h
                  have := Reads.drop c (js "false") (ch :: cs)
                    (by intro hm; simp [js, utf16] at hm; omega) ht
                  exact this
                · split at h
                  · rename_i ht
                    simp only [Option.some.injEq, Prod.mk.injEq] at h
                    obtain ⟨-, rfl⟩ := h
                    have := Reads.drop c (js "null") (ch :: cs)
                      (by intro hm; simp [js, utf16] at hm; omega) ht
                    exact this
                  · simp only [Option.map_eq_some', Prod.exists] at h
                    obtain ⟨nn, r2, hrec, hres⟩ := h
                    simp only [Prod.mk.injEq] at hres
                    obtain ⟨-, rfl⟩ := hres
                    exact parseNumber_reads c hc _ _ _ hrec
    · intro s l r h
      unfold parseElements at h
      split at h
      · cases h
      · rename_i v r1 hv
        have h1 := ihV _ _ _ hv
        split at h
        · rename_i r2 hsk
          simp only [Option.map_eq_some', Prod.exists] at h
          obtain ⟨l2, r3, hrec, hres⟩ := h
          simp only [Prod.mk.injEq] at hres
          obtain ⟨-, rfl⟩ := hres
          have h2 := Reads.skipWs c hws r1
          rw [hsk] at h2
          exact h1.trans (h2.trans (Reads.cons (by omega)
            ((Reads.skipWs c hws r2).trans (ihE _ _ _ hrec))))
        · rename_i r2 hsk
          simp only [Option.some.injEq, Prod.mk.injEq] at h
          obtain ⟨-, rfl⟩ := h
          have h2 := Reads.skipWs c hws r1
          rw [hsk] at h2
          exact h1.trans (h2.trans (Reads.cons (by omega) (Reads.refl _ _)))
        · cases h
    · intro s l r h
      unfold parseMembers at h
      split at h
      · rename_i r0
        split at h
        · cases h
        · rename_i k r1 hk
          have hkey := parseStringBody_reads c hc _ _ _ _ (Nat.le_refl _) hk
          split at h
          · rename_i r2 hsk
            have h2 := Reads.skipWs c hws r1
            rw [hsk] at h2
            split at h
            · cases h
            · rename_i v r3 hv
              have h3 := (Reads.skipWs c hws r2).trans (ihV _ _ _ hv)
              split at h
              · rename_i r4 hsk2
                simp only [Option.map_eq_some', Prod.exists] at h
                obtain ⟨l2, r5, hrec, hres⟩ := h
                simp only [Prod.mk.injEq] at hres
                obtain ⟨-, rfl⟩ := hres
                have h4 := Reads.skipWs c hws r3
                rw [hsk2] at h4
                exact Reads.cons (by omega) (hkey.trans (h2.trans (Reads.cons (by omega)
                  (h3.trans (h4.trans (Reads.cons (by omega)
                    ((Reads.skipWs c hws r4).trans (ihM _ _ _ hrec))))))))
              · rename_i r4 hsk2
                simp only [Option.some.injEq, Prod.mk.injEq] at h
                obtain ⟨-, rfl⟩ := h
                have h4 := Reads.skipWs c hws r3
                rw [hsk2] at h4
                exact Reads.cons (by omega) (hkey.trans (h2.trans (Reads.cons (by omega)
                  (h3.trans (h4.trans (Reads.cons (by omega) (Reads.refl _ _)))))))
              · cases h
          · cases h
      · cases h

/-- `JSON.parse` rejects every text that holds a control character other than
JSON whitespace, the terminators 0x03 and 0x04 among them. -/
theorem JSONparse_control (c : Nat) (hc : c < 32) (hws : isJsonWs c = false) (s : JSString)
    (hmem : c ∈ s) : JSONparse s = none := by
  unfold JSONparse
  split
  · rename_i v r hv
    split
    · rename_i hr
      exfalso
      have h1 := (Reads.skipWs c hws s).trans
        (((parse_reads c hc hws _).1 _ _ _ hv).trans (Reads.skipWs c hws r))
      have hnil : WiffiWz.skipWs r = [] := by simpa using hr
      rw [hnil] at h1
      exact absurd (h1.mem hmem) (by simp)
    · rfl
  · rfl

/-! ### Frame extraction -/

theorem startsWith_snoc (x : Nat) : ∀ (pat s : JSString), x ∉ pat →
    startsWith pat (s ++ [x]) = startsWith pat s
  | [], _, _ => by simp [startsWith]
  | p :: ps, [], h => by
    have hp : (p == x) = false := by
      simp only [List.mem_cons, not_or] at h
      simpa using fun hEq => h.1 hEq.symm
    simp [startsWith, hp]
  | p :: ps, c :: cs, h => by
    have ih := startsWith_snoc x ps cs (fun hm => h (List.mem_cons_of_mem _ hm))
    simp [startsWith, ih]

theorem startsWith_length : ∀ (pat s : JSString), startsWith pat s = true → pat.length ≤ s.length
  | [], _, _ => by simp
  | p :: ps, [], h => by simp [startsWith] at h
  | p :: ps, c :: cs, h => by
    simp only [startsWith, Bool.and_eq_true] at h
    have := startsWith_length ps cs h.2
    simp only [List.length_cons]
    omega

theorem replaceAllAux_snoc (pat rep : JSString) (x : Nat) (hx : x ∉ pat) (hpat : pat ≠ []) :
    ∀ (s : JSString) (k : Nat), k ≤ s.length →
      replaceAllAux pat rep k (s ++ [x]) = replaceAllAux pat rep k s ++ [x] := by
  intro s
  induction s with
  | nil =>
    intro k hk
    have hk0 : k = 0 := by simpa using hk
    subst hk0
    have hs : startsWith pat [x] = false := by
      have := startsWith_snoc x pat [] hx
      rw [List.nil_append] at this
      rw [this]
      cases pat with
      | nil => exact absurd rfl hpat
      | cons p ps => rfl
    simp [replaceAllAux, hs]
  | cons c cs ih =>
    intro k hk
    cases k with
    | zero =>
      have hsw : startsWith pat (c :: (cs ++ [x])) = startsWith pat (c :: cs) :=
        startsWith_snoc x pat (c :: cs) hx
      rw [List.cons_append]
      unfold replaceAllAux
      rw [hsw]
      cases hst : startsWith pat (c :: cs) with
      | false => simp [ih 0 (Nat.zero_le _)]
      | true =>
        have hl := startsWith_length pat (c :: cs) hst
        simp only [List.length_cons] at hl
        simp [ih (pat.length - 1) (by omega)]
    | succ k =>
      simp only [List.length_cons] at hk
      rw [List.cons_append]
      unfold replaceAllAux
      exact ih k (by omega)

theorem nanWorkaround_snoc (t : JSString) (x : Nat) (h1 : x ∉ js ":nan") (h2 : x ∉ js ":'nan'") :
    nanWorkaround (t ++ [x]) = nanWorkaround t ++ [x] := by
  unfold nanWorkaround replaceAll
  rw [replaceAllAux_snoc _ _ x h1 (by decide) t 0 (Nat.zero_le _),
    replaceAllAux_snoc _ _ x h2 (by decide) _ 0 (Nat.zero_le _)]

theorem splitAux_snoc (sep : Nat) : ∀ (y cur : JSString), sep ∉ y →
    splitAux sep cur (y ++ [sep]) = [cur.reverse ++ y, []]
  | [], cur, _ => by simp [splitAux]
  | c :: cs, cur, h => by
    simp only [List.mem_cons, not_or] at h
    have hc : (c == sep) = false := by simpa using fun hEq => h.1 hEq.symm
    rw [List.cons_append]
    unfold splitAux
    rw [hc]
    simp [splitAux_snoc sep cs (c :: cur) h.2]

theorem dropWhile_none (p : Nat → Bool) (s : JSString) (h : ∀ c ∈ s, p c = false) :
    s.dropWhile p = s := by
  cases s with
  | nil => rfl
  | cons c cs => simp [List.dropWhile_cons, h c (List.mem_cons_self _ _)]

theorem trim_stripSpace (s : JSString) : trim (stripSpace s) = stripSpace s := by
  have h : ∀ c ∈ stripSpace s, isSpace c = false := by
    intro c hc
    unfold stripSpace at hc
    simpa using (List.mem_filter.1 hc).2
  unfold trim
  rw [dropWhile_none _ _ h, dropWhile_none _ _ (fun c hc => h c (List.mem_reverse.1 hc)),
    List.reverse_reverse]

/-- The segments of a terminated text, after the workaround and the removal
of whitespace. -/
theorem split_terminated (t : JSString) (sep : Nat) (hsep : sep = 3 ∨ sep = 4)
    (hmem : sep ∉ stripSpace (nanWorkaround t)) :
    split (stripSpace (nanWorkaround (t ++ [sep]))) sep = [stripSpace (nanWorkaround t), []] := by
  have h1 : sep ∉ js ":nan" := by rcases hsep with rfl | rfl <;> decide
  have h2 : sep ∉ js ":'nan'" := by rcases hsep with rfl | rfl <;> decide
  have hsp : isSpace sep = false := by rcases hsep with rfl | rfl <;> decide
  rw [nanWorkaround_snoc t sep h1 h2]
  have hstrip : stripSpace (nanWorkaround t ++ [sep]) = stripSpace (nanWorkaround t) ++ [sep] := by
    unfold stripSpace
    rw [List.filter_append]
    simp [hsp]
  rw [hstrip]
  unfold split
  rw [splitAux_snoc sep _ [] hmem]
  rfl

theorem not_mem_of_parse (c : Nat) (hc : c = 3 ∨ c = 4) (s : JSString) (v : Json)
    (h : JSONparse s = some v) : c ∉ s := by
  intro hmem
  have hn : JSONparse s = none := by
    rcases hc with rfl | rfl
    · exact JSONparse_control 3 (by decide) (by decide) s hmem
    · exact JSONparse_control 4 (by decide) (by decide) s hmem
  rw [hn] at h
  cases h

theorem splitAux_none (sep : Nat) : ∀ (s cur : JSString), sep ∉ s →
    splitAux sep cur s = [cur.reverse ++ s]
  | [], cur, _ => by simp [splitAux]
  | c :: cs, cur, h => by
    simp only [List.mem_cons, not_or] at h
    have hc : (c == sep) = false := by simpa using fun hEq => h.1 hEq.symm
    unfold splitAux
    rw [hc]
    simp [splitAux_none sep cs (c :: cur) h.2]

theorem split_none (sep : Nat) (s : JSString) (h : sep ∉ s) : split s sep = [s] := by
  unfold split
  rw [splitAux_none sep s [] h]
  rfl

theorem mem_splitAux (sep : Nat) : ∀ (s cur seg : JSString), seg ∈ splitAux sep cur s →
    ∀ c ∈ seg, c ∈ cur ∨ c ∈ s
  | [], cur, seg, h => by
    simp only [splitAux, List.mem_singleton] at h
    subst h
    intro c hc
    exact Or.inl (List.mem_reverse.1 hc)
  | d :: ds, cur, seg, h => by
    unfold splitAux at h
    split at h
    · rcases List.mem_cons.1 h with rfl | h
      · intro c hc
        exact Or.inl (List.mem_reverse.1 hc)
      · intro c hc
        rcases mem_splitAux sep ds [] seg h c hc with h2 | h2
        · cases h2
        · exact Or.inr (List.mem_cons_of_mem _ h2)
    · intro c hc
      rcases mem_splitAux sep ds (d :: cur) seg h c hc with h2 | h2
      · rcases List.mem_cons.1 h2 with rfl | h3
        · exact Or.inr (List.mem_cons_self _ _)
        · exact Or.inl h3
      · exact Or.inr (List.mem_cons_of_mem _ h2)

theorem trim_segment (s : JSString) (sep : Nat) (seg : JSString)
    (h : seg ∈ split (stripSpace s) sep) : trim seg = seg := by
  have hs : ∀ c ∈ seg, isSpace c = false := by
    intro c hc
    rcases mem_splitAux sep _ [] seg h c hc with h2 | h2
    · cases h2
    · unfold stripSpace at h2
      simpa using (List.mem_filter.1 h2).2
  unfold trim
  rw [dropWhile_none _ _ hs, dropWhile_none _ _ (fun c hc => hs c (List.mem_reverse.1 hc)),
    List.reverse_reverse]

theorem parseLoop_nothing (jc : Option Json) :
    ∀ segs : List JSString, (∀ seg ∈ segs, JSONparse (trim seg) = none) →
      truthy? jc = false → parseLoop jc segs = jc := by
  intro segs
  induction segs with
  | nil => intro _ _; rfl
  | cons seg rest ih =>
    intro h hj
    unfold parseLoop
    simp only [h seg (List.mem_cons_self _ _), hj, Bool.false_eq_true, if_false]
    exact ih (fun x hx => h x (List.mem_cons_of_mem _ hx)) hj

theorem parseLoop_first (jc : Option Json) (seg : JSString) (rest : List JSString) (v : Json)
    (hp : JSONparse (trim seg) = some v) (hv : v.truthy = true) :
    parseLoop jc (seg :: rest) = some v := by
  unfold parseLoop
  simp [hp, truthy?, hv]

theorem appendChunk_fits (buffer data : JSString)
    (h : (nanWorkaround (buffer ++ data)).length ≤ maxBufferSize) :
    appendChunk buffer data = nanWorkaround (buffer ++ data) := by
  unfold appendChunk
  rw [if_neg (by omega)]

theorem cascade_first_stage (b : JSString) (v : Json) (hv : v.truthy = true)
    (h : parseLoop none (split (stripSpace b) 3) = some v) :
    payloadOf (parseCascade b) = some v := by
  have hs : truthy? (some v) = true := hv
  unfold parseCascade payloadOf
  simp only [h, hs, Bool.not_false, Bool.not_true, if_true, Bool.false_eq_true, if_false]

theorem cascade_second_stage (b : JSString) (v : Json) (hv : v.truthy = true)
    (h1 : truthy? (parseLoop none (split (stripSpace b) 3)) = false)
    (h : parseLoop (parseLoop none (split (stripSpace b) 3)) (split (stripSpace b) 4) = some v) :
    payloadOf (parseCascade b) = some v := by
  have hs : truthy? (some v) = true := hv
  unfold parseCascade payloadOf
  simp only [h1, h, hs, Bool.not_false, Bool.not_true, if_true, Bool.false_eq_true, if_false]

theorem cascade_anchor_stage (b : JSString) (v : Json) (hv : v.truthy = true)
    (h1 : truthy? (parseLoop none (split (stripSpace b) 3)) = false)
    (h2 : truthy? (parseLoop (parseLoop none (split (stripSpace b) 3))
      (split (stripSpace b) 4)) = false)
    (h : JSONparse (substring b (indexOf b (js "\x7b\"modultyp\""))
      (indexOf b (js "\x7d\x7d") + 2)) = some v) :
    payloadOf (parseCascade b) = some v := by
  have hs : truthy? (some v) = true := hv
  unfold parseCascade payloadOf
  simp only [h1, h2, h, hs, Bool.not_false, Bool.not_true, if_true, Bool.false_eq_true, if_false]

theorem nanScan_clean : ∀ s : JSString, hasNanMark s = false → nanScan s = s := by
  intro s
  induction s with
  | nil => intro _; rfl
  | cons c cs ih =>
    intro h
    simp only [hasNanMark, Bool.or_eq_false_iff] at h
    rw [nanScan_cons, h.1.1, h.1.2, ih h.2]
    simp

theorem nanScan_piece (z : JSString) :
    ∀ s : JSString, hasNanMark (s ++ [58]) = false →
      nanScan (s ++ 58 :: z) = s ++ nanScan (58 :: z) := by
  intro s
  induction s with
  | nil => intro _; rfl
  | cons c cs ih =>
    intro h
    rw [List.cons_append] at h
    simp only [hasNanMark, Bool.or_eq_false_iff] at h
    have hguard : ∀ ps : JSString, 58 ∉ ps →
        startsWith (58 :: ps) (c :: (cs ++ [58])) = false →
        startsWith (58 :: ps) (c :: (cs ++ 58 :: z)) = false := by
      intro ps hps hf
      rw [startsWith_cons_cons] at hf ⊢
      cases hc : (58 == c) with
      | false => rfl
      | true =>
        rw [hc, Bool.true_and] at hf
        rw [Bool.true_and]
        cases hz : startsWith ps (cs ++ 58 :: z) with
        | false => rfl
        | true =>
          have hz2 : startsWith ps ((cs ++ [58]) ++ z) = true := by
            rw [List.append_assoc]; exact hz
          have hmem := mem_of_startsWith_append ps (cs ++ [58]) z hz2 hf
          exact absurd (hmem 58 (by simp)) hps
    have h1 := hguard (js "nan") (by decide) (by rw [← pat1_eq]; exact h.1.1)
    have h2 := hguard (js "'nan'") (by decide) (by rw [← pat2_eq]; exact h.1.2)
    rw [← pat1_eq] at h1
    rw [← pat2_eq] at h2
    rw [List.cons_append, nanScan_cons, h1, h2, ih h.2]
    simp

/-- The workaround turns the text as sent into the text as read: every nan
token of the template, and nothing else, becomes the string "nan". -/
theorem nanWorkaround_template (last : JSString) :
    ∀ segs : List (JSString × NanToken), NanTemplate segs last →
      nanWorkaround (sentText segs last) = readText segs last := by
  intro segs
  induction segs with
  | nil =>
    intro h
    rw [nanWorkaround_eq]
    exact nanScan_clean last h.2
  | cons seg rest ih =>
    intro h
    obtain ⟨s, tok⟩ := seg
    have hs : hasNanMark (s ++ [58]) = false := h.1 (s, tok) (List.mem_cons_self _ _)
    have ih2 := ih ⟨fun x hx => h.1 x (List.mem_cons_of_mem _ hx), h.2⟩
    rw [nanWorkaround_eq] at ih2 ⊢
    have e1 : sentText ((s, tok) :: rest) last = s ++ 58 :: (tok.text ++ sentText rest last) := by
      simp [sentText]
    have e2 : readText ((s, tok) :: rest) last =
        s ++ (js ":\"nan\"" ++ readText rest last) := by
      simp [readText, rep_eq]
    rw [e1, e2, nanScan_piece _ s hs, nanScan_token, ih2]

theorem resolve_settled (env : Env) (b : JSString) (v : Json) (h : Settled env v) :
    (resolve env b v).buffer = [] ∧ (resolve env b v).payload = some v ∧
      (resolve env b v).raised = false := by
  obtain ⟨ip, hip, h⟩ := h
  unfold resolve
  rw [hip]
  rcases h with h | ⟨a, rfl, hlit, ha⟩
  · simp [h]
  · obtain ⟨found, hq, hlen⟩ := queryDevices_literal env.devicesOther env.devices a hlit
    have hne : ¬ found.length = 0 := by
      rw [hlen, ha]; simp
    cases hta : truthy? (some (Json.str a)) with
    | false => simp [hta]
    | true => simp [hta, hq, hne, deviceFound]

theorem handleData_payload (env : Env) (buffer data : JSString) (v : Json)
    (h : payloadOf (parseCascade (appendChunk buffer data)) = some v) :
    handleData env buffer data = resolve env (appendChunk buffer data) v := by
  unfold handleData
  simp only [h]

theorem handleData_nothing (env : Env) (buffer data : JSString)
    (h : payloadOf (parseCascade (appendChunk buffer data)) = none) :
    handleData env buffer data = ⟨appendChunk buffer data, none, false, [], false⟩ := by
  unfold handleData
  simp only [h]

theorem cascade_terminated (t : JSString) (v : Json)
    (hparse : JSONparse (stripSpace (nanWorkaround t)) = some v) (hv : v.truthy = true) :
    payloadOf (parseCascade (nanWorkaround (t ++ [3]))) = some v := by
  apply cascade_first_stage _ _ hv
  rw [split_terminated t 3 (Or.inl rfl) (not_mem_of_parse 3 (Or.inl rfl) _ v hparse)]
  exact parseLoop_first none _ _ v (by rw [trim_stripSpace]; exact hparse) hv

theorem cascade_terminated_eot (t : JSString) (v : Json)
    (hparse : JSONparse (stripSpace (nanWorkaround t)) = some v) (hv : v.truthy = true) :
    payloadOf (parseCascade (nanWorkaround (t ++ [4]))) = some v := by
  have h3 : 3 ∉ stripSpace (nanWorkaround t) := not_mem_of_parse 3 (Or.inl rfl) _ v hparse
  have h4 : 4 ∉ stripSpace (nanWorkaround t) := not_mem_of_parse 4 (Or.inr rfl) _ v hparse
  have hw : nanWorkaround (t ++ [4]) = nanWorkaround t ++ [4] :=
    nanWorkaround_snoc t 4 (by decide) (by decide)
  have hstrip : stripSpace (nanWorkaround (t ++ [4])) = stripSpace (nanWorkaround t) ++ [4] := by
    rw [hw]
    unfold stripSpace
    rw [List.filter_append]
    rfl
  have h3b : 3 ∉ stripSpace (nanWorkaround (t ++ [4])) := by
    rw [hstrip]
    intro hm
    rcases List.mem_append.1 hm with hm | hm
    · exact h3 hm
    · simp at hm
  have hfirst : parseLoop none (split (stripSpace (nanWorkaround (t ++ [4]))) 3) = none := by
    rw [split_none 3 _ h3b]
    apply parseLoop_nothing none _ _ rfl
    intro seg hseg
    rw [List.mem_singleton] at hseg
    subst hseg
    rw [trim_stripSpace]
    exact JSONparse_control 4 (by decide) (by decide) _ (by rw [hstrip]; simp)
  apply cascade_second_stage _ _ hv (by rw [hfirst]; rfl)
  rw [hfirst, split_terminated t 4 (Or.inr rfl) h4]
  exact parseLoop_first _ _ _ v (by rw [trim_stripSpace]; exact hparse) hv

theorem payloads_cons (env : Env) (buffer data : JSString) (rest : List JSString) :
    payloads env buffer (data :: rest) =
      match (handleData env buffer data).payload with
      | some v => v :: (if (handleData env buffer data).raised then []
          else payloads env (handleData env buffer data).buffer rest)
      | none => if (handleData env buffer data).raised then []
          else payloads env (handleData env buffer data).buffer rest := rfl

theorem bufferAfter_cons (env : Env) (buffer data : JSString) (rest : List JSString) :
    bufferAfter env buffer (data :: rest) =
      if (handleData env buffer data).raised then (handleData env buffer data).buffer
      else bufferAfter env (handleData env buffer data).buffer rest := rfl

/-- The calls for the remaining chunks `r` of a frame, after its chunks `q`. -/
theorem deliver_frame (env : Env) (f : Frame) (rest : List JSString) (hf : WellDelivered env f) :
    ∀ (r q : List JSString), f.chunks = q ++ r → r ≠ [] →
      payloads env (nanWorkaround q.flatten) (r ++ rest) = f.value :: payloads env [] rest ∧
      bufferAfter env (nanWorkaround q.flatten) (r ++ rest) = bufferAfter env [] rest := by
  obtain ⟨hcat, hsize, hnone, hparse, hv, hset⟩ := hf
  intro r
  induction r with
  | nil => intro q _ h; exact absurd rfl h
  | cons p r2 ih =>
    intro q hq _
    have hq2 : f.chunks = (q ++ [p]) ++ r2 := by rw [hq]; simp
    have hin : q ++ [p] ∈ f.chunks.inits := by
      rw [List.mem_inits]; exact ⟨r2, hq2.symm⟩
    have hflat : (q ++ [p]).flatten = q.flatten ++ p := by simp
    have hb : appendChunk (nanWorkaround q.flatten) p = nanWorkaround (q ++ [p]).flatten := by
      rw [hflat]
      have := hsize _ hin
      rw [hflat] at this
      rw [appendChunk_fits _ _ (by rw [nanWorkaround_append]; exact this), nanWorkaround_append]
    rw [List.cons_append]
    by_cases hr2 : r2 = []
    · subst hr2
      have hwhole : (q ++ [p]).flatten = f.text ++ [3] := by
        rw [← hcat, hq2]; simp
      have hpay : payloadOf (parseCascade (appendChunk (nanWorkaround q.flatten) p)) =
          some f.value := by
        rw [hb, hwhole]
        exact cascade_terminated f.text f.value hparse hv
      have hres := resolve_settled env (appendChunk (nanWorkaround q.flatten) p) f.value hset
      have hh := handleData_payload env _ _ _ hpay
      rw [payloads_cons, bufferAfter_cons]
      simp only [hh, hres.1, hres.2.1, hres.2.2, Bool.false_eq_true, if_false, List.nil_append,
        and_self]
    · have hne : q ++ [p] ≠ f.chunks := by
        intro hEq
        rw [hq2] at hEq
        have : (q ++ [p]) ++ r2 = (q ++ [p]) ++ [] := by rw [List.append_nil]; exact hEq.symm
        exact hr2 (List.append_cancel_left this)
      have hpay : payloadOf (parseCascade (appendChunk (nanWorkaround q.flatten) p)) = none := by
        rw [hb]; exact hnone _ hin hne
      have hh := handleData_nothing env _ _ hpay
      have ih2 := ih (q ++ [p]) hq2 hr2
      rw [payloads_cons, bufferAfter_cons]
      simp only [hh, Bool.false_eq_true, if_false]
      rw [hb]
      exact ih2

/-- C1, as stated, fails. A chunk that carries two complete terminated frames
yields the first payload only, and the buffer is emptied, so the second frame
is never delivered. And a frame cut before its last brace, whose first chunk
holds an inner object between the anchors of the fallback stage, yields that
inner object instead of the frame. -/
theorem second_frame_lost :
    JSONparse (frameText "1") = some (framePayload 1) ∧
      JSONparse (frameText "2") = some (framePayload 2) ∧
      payloads exampleEnv [] [frameText "1" ++ [3] ++ frameText "2" ++ [3]] = [framePayload 1] ∧
      bufferAfter exampleEnv [] [frameText "1" ++ [3] ++ frameText "2" ++ [3]] = [] ∧
      JSONparse (nestedText ++ js "\x7d") = some (.obj [(js "a", nestedInner)]) ∧
      payloads exampleEnv [] [nestedText, js "\x7d\x03"] = [nestedInner] := by
  decide

/-- C1, amended. Let every frame arrive in one or more chunks that carry its
text and its 0x03 terminator and nothing of another frame, let the buffer stay
within `maxBufferSize`, let no call before the last chunk of a frame yield a
payload, let the complete text parse (after the nan workaround and the removal
of whitespace) to a truthy value, and let the call that delivers it end in a
branch that clears the buffer (no address found, or the address of a configured
device, quoted literally by the filter). Then the payloads of the calls are
these values, each once and in arrival order, and the buffer is empty at the
end. -/
theorem frames_delivered (env : Env) (frames : List Frame)
    (h : ∀ f ∈ frames, WellDelivered env f) :
    payloads env [] (frames.flatMap (fun f => f.chunks)) = frames.map (fun f => f.value) ∧
      bufferAfter env [] (frames.flatMap (fun f => f.chunks)) = [] := by
  induction frames with
  | nil => exact ⟨rfl, rfl⟩
  | cons f fs ih =>
    have hf := h f (List.mem_cons_self _ _)
    have ih2 := ih (fun g hg => h g (List.mem_cons_of_mem _ hg))
    have hne : f.chunks ≠ [] := by
      intro hnil
      have := hf.1
      rw [hnil] at this
      simp at this
    have hd := deliver_frame env f (fs.flatMap (fun f => f.chunks)) hf f.chunks [] rfl hne
    have hnil : nanWorkaround ([] : List JSString).flatten = [] := rfl
    rw [hnil] at hd
    rw [List.flatMap_cons, List.map_cons, hd.1, hd.2, ih2.1]
    exact ⟨rfl, ih2.2⟩

/-- Witness of C1: the first frame of the configured device arrives in two
chunks, cut inside its text, the second in one chunk. -/
theorem frames_delivered_witness :
    (∀ f ∈ [Frame.mk [(frameText "1").take 20, (frameText "1").drop 20 ++ [3]]
                (frameText "1") (framePayload 1),
             Frame.mk [frameText "2" ++ [3]] (frameText "2") (framePayload 2)],
        WellDelivered exampleEnv f) ∧
      payloads exampleEnv []
          [(frameText "1").take 20, (frameText "1").drop 20 ++ [3], frameText "2" ++ [3]] =
        [framePayload 1, framePayload 2] :=
  have hs : ∀ n : Nat, Settled exampleEnv (framePayload n) := fun n =>
    ⟨some (.str (js "10.0.0.5")), rfl, Or.inr ⟨_, rfl, by decide, by decide⟩⟩
  have h : ∀ f ∈ [Frame.mk [(frameText "1").take 20, (frameText "1").drop 20 ++ [3]]
                (frameText "1") (framePayload 1),
             Frame.mk [frameText "2" ++ [3]] (frameText "2") (framePayload 2)],
        WellDelivered exampleEnv f := by
    intro f hf
    simp only [List.mem_cons, List.mem_singleton, List.not_mem_nil, or_false] at hf
    rcases hf with rfl | rfl
    · exact ⟨by decide, by decide, by decide, by decide, rfl, hs 1⟩
    · exact ⟨by decide, by decide, by decide, by decide, rfl, hs 2⟩
  ⟨h, (frames_delivered exampleEnv _ h).1⟩

theorem resolve_payload (env : Env) (b : JSString) (v : Json) :
    (resolve env b v).payload = some v := by
  unfold resolve deviceFound
  repeat' split
  all_goals rfl

theorem handleData_yields (env : Env) (buffer data : JSString) :
    (handleData env buffer data).payload = payloadOf (parseCascade (appendChunk buffer data)) := by
  cases h : payloadOf (parseCascade (appendChunk buffer data)) with
  | none => rw [handleData_nothing env buffer data h]
  | some v => rw [handleData_payload env buffer data v h, resolve_payload]

theorem substring_middle (pre body post : JSString) :
    substring (pre ++ body ++ post) (pre.length : Int) ((pre ++ body).length : Int) = body := by
  unfold substring
  simp only [Int.toNat_ofNat, List.length_append]
  have h1 : min pre.length (pre.length + body.length + post.length) = pre.length := by omega
  have h2 : min (pre.length + body.length) (pre.length + body.length + post.length) =
      pre.length + body.length := by omega
  have h3 : min pre.length (pre.length + body.length) = pre.length := by omega
  have h4 : max pre.length (pre.length + body.length) - pre.length = body.length := by omega
  rw [h1, h2, h3, h4, List.append_assoc, List.drop_left, List.take_left]

/-- C9, as stated, fails: when a space separates the colon from the nan token
the text is a well-formed object once nan is read as "nan", but the workaround
does not touch it and no stage parses it, neither on the terminator-split path
nor, with leading junk, on the anchor path. -/
theorem spaced_nan_not_parsed :
    JSONparse (js "\x7b\"modultyp\":\"WZ\",\"v\":\x7b\"t\": \"nan\"\x7d\x7d") = some nanPayload ∧
      parseCascade (appendChunk [] (nanText " nan" ++ [3])) = none ∧
      parseCascade (appendChunk [] (js "junk" ++ nanText " nan")) = none ∧
      (handleData exampleEnv [] (nanText " nan" ++ [3])).payload = none := by
  decide

/-- C9, amended. Let the text received consist of pieces, each followed by a
colon and directly by a nan token (`nan` or `'nan'`), and a last piece, with no
other `:nan` or `:'nan'` in it; its reading is the same text with every token
replaced by the string "nan". If the text is terminated by 0x03 or by 0x04 and
its reading, with whitespace removed, is parsed by `JSON.parse` to a truthy
value, the handler yields that value. On the anchor path, if no segment
between terminators of the reading (whitespace removed) is valid JSON and the
part of the reading from its first `{"modultyp"` to the end of its first `}}`
is parsed to a truthy value, the handler yields that value. -/
theorem nan_workaround (env : Env) (segs : List (JSString × NanToken)) (last : JSString)
    (ht : NanTemplate segs last) (v : Json) (hv : v.truthy = true) (buffer data : JSString) :
    (buffer ++ data = sentText segs last ++ [3] →
        (readText segs last ++ [3]).length ≤ maxBufferSize →
        JSONparse (stripSpace (readText segs last)) = some v →
        (handleData env buffer data).payload = some v) ∧
      (buffer ++ data = sentText segs last ++ [4] →
        (readText segs last ++ [4]).length ≤ maxBufferSize →
        JSONparse (stripSpace (readText segs last)) = some v →
        (handleData env buffer data).payload = some v) ∧
      (buffer ++ data = sentText segs last →
        (readText segs last).length ≤ maxBufferSize →
        (∀ seg ∈ split (stripSpace (readText segs last)) 3, JSONparse seg = none) →
        (∀ seg ∈ split (stripSpace (readText segs last)) 4, JSONparse seg = none) →
        ∀ pre body post, readText segs last = pre ++ body ++ post →
          indexOf (readText segs last) (js "\x7b\"modultyp\"") = (pre.length : Int) →
          indexOf (readText segs last) (js "\x7d\x7d") + 2 = ((pre ++ body).length : Int) →
          JSONparse body = some v →
          (handleData env buffer data).payload = some v) := by
  have hw := nanWorkaround_template last segs ht
  refine ⟨?_, ?_, ?_⟩
  · intro hcat hsize hparse
    have hw3 : nanWorkaround (sentText segs last ++ [3]) = readText segs last ++ [3] := by
      rw [nanWorkaround_snoc _ 3 (by decide) (by decide), hw]
    rw [handleData_yields, appendChunk_fits buffer data (by rw [hcat, hw3]; exact hsize), hcat]
    exact cascade_terminated _ v (by rw [hw]; exact hparse) hv
  · intro hcat hsize hparse
    have hw4 : nanWorkaround (sentText segs last ++ [4]) = readText segs last ++ [4] := by
      rw [nanWorkaround_snoc _ 4 (by decide) (by decide), hw]
    rw [handleData_yields, appendChunk_fits buffer data (by rw [hcat, hw4]; exact hsize), hcat]
    exact cascade_terminated_eot _ v (by rw [hw]; exact hparse) hv
  · intro hcat hsize h3 h4 pre body post hsplit hstart hend hparse
    rw [handleData_yields, appendChunk_fits buffer data (by rw [hcat, hw]; exact hsize), hcat, hw]
    have hs3 : parseLoop none (split (stripSpace (readText segs last)) 3) = none :=
      parseLoop_nothing none _
        (fun seg hseg => by rw [trim_segment _ 3 seg hseg]; exact h3 seg hseg) rfl
    have hs4 : parseLoop none (split (stripSpace (readText segs last)) 4) = none :=
      parseLoop_nothing none _
        (fun seg hseg => by rw [trim_segment _ 4 seg hseg]; exact h4 seg hseg) rfl
    apply cascade_anchor_stage _ _ hv (by rw [hs3]; rfl) (by rw [hs3, hs4]; rfl)
    rw [hstart, hend]
    conv => lhs; rw [hsplit]
    rw [substring_middle]
    exact hparse

/-- Witness of C9: the text {"modultyp":"WZ","v":{"t":nan,"u":'nan'}} with a
bare and a quoted token, terminated by 0x03 and by 0x04, and on the anchor
path after the junk `junk`. -/
theorem nan_workaround_witness :
    NanTemplate twoNanSegs (js "\x7d\x7d") ∧
      (handleData exampleEnv [] (sentText twoNanSegs (js "\x7d\x7d") ++ [3])).payload =
        some twoNanPayload ∧
      (handleData exampleEnv (js "\x7b\"modultyp\"")
        ((sentText twoNanSegs (js "\x7d\x7d") ++ [4]).drop 11)).payload = some twoNanPayload ∧
      (handleData exampleEnv (js "junk") (sentText twoNanSegs (js "\x7d\x7d"))).payload =
        some twoNanPayload :=
  have ht : NanTemplate twoNanSegs (js "\x7d\x7d") := by
    constructor
    · intro s hs
      simp only [twoNanSegs, List.mem_cons, List.mem_singleton, List.not_mem_nil, or_false] at hs
      rcases hs with rfl | rfl <;> decide
    · decide
  have hj : NanTemplate junkNanSegs (js "\x7d\x7d") := by
    constructor
    · intro s hs
      simp only [junkNanSegs, List.mem_cons, List.mem_singleton, List.not_mem_nil, or_false] at hs
      rcases hs with rfl | rfl <;> decide
    · decide
  ⟨ht,
    (nan_workaround exampleEnv twoNanSegs (js "\x7d\x7d") ht twoNanPayload rfl [] _).1
      rfl (by decide) (by decide),
    (nan_workaround exampleEnv twoNanSegs (js "\x7d\x7d") ht twoNanPayload rfl
      (js "\x7b\"modultyp\"") _).2.1 (by decide) (by decide) (by decide),
    (nan_workaround exampleEnv junkNanSegs (js "\x7d\x7d") hj twoNanPayload rfl (js "junk") _).2.2
      (by decide) (by decide) (by decide) (by decide)
      (js "junk") (readText twoNanSegs (js "\x7d\x7d")) [] (by decide) (by decide) (by decide)
      (by decide)⟩

end WiffiWz
